import Mathlib

/-!
# mcrvpn: the background-task controller of `hiddify_extension/extension.go`

The Go type `Mcrvpn` owns one cancel slot (`cancel`), the console text and the
form data (`Base.Data.Count`).  `SubmitData` dispatches on the pressed button,
`stop`/`Close` cancel the running task, and `backgroundTask` is the goroutine
that prints one progress line per second until it is finished or cancelled.

The embedding is a small-step machine.

* `World` is the shared memory: the `Mcrvpn` value, the contexts created by
  `context.WithCancel` (one flag each: has `Done()` been closed), the goroutines
  launched by `go e.backgroundTask(ctx)` with their local variable `count` and
  their program point, and a history of the calls made so far (a ghost variable:
  the program never reads it).
* `backgroundTaskStep` executes one statement of `backgroundTask` for one
  goroutine. A `select` on a cancelled context takes the `ctx.Done()` case; on a
  context that is not cancelled it takes the `time.After` case (the second has
  passed before any cancel).
* `Sys` adds the position of the controller inside a call, and `Sys.step` executes
  one statement of `SubmitData`/`stop` or of a goroutine. Nothing in
  `extension.go` orders the statements of a call against those of a goroutine, so
  the reachable states (`Reachable`) are those of all interleavings of single
  statements. The host makes its calls one at a time. Calling a nil cancel function
  stops the program (`Ctl.panicked`).
* `SubmitData`, `stop` and `Close` as functions on `World` are a call executed with
  no statement of a goroutine in between; `exec` runs such calls and goroutine
  statements, and every run of `exec` is a run of `Sys.exec` (`exec_is_moves`).
* Go's `int` is 64 bits wide: `Count` lies between `minInt` and `maxInt`, and
  `count++` wraps around (`wrapInt`).
* `ShowMessage` and the button tags belong to the host library `hiddify-core`;
  `setFormData` and `addAndUpdateConsole` are methods of the package that are not
  in `extension.go`. They are parameters (`Host`) or are modelled from the spec.
-/

namespace HiddifyExtension

/-! ## Data -/

/-- The three colour printers `red`, `green`, `yellow` of the source. -/
inductive Color where
  | red
  | green
  | yellow
deriving DecidableEq, Repr

/-- The string returned by one `<colour>.Sprint(...)` call: the colour and the
text `fmt.Sprint` built. -/
structure Part where
  color : Color
  text : String
deriving DecidableEq, Repr

/-- The arguments of one `addAndUpdateConsole(...)` call: one console line. -/
abbrev Line := List Part

/-- A non-nil Go `error`, by the text of its `Error()` method. -/
structure GoError where
  Error : String
deriving DecidableEq, Repr

/-- Smallest value of Go `int` (64 bits). -/
def minInt : Int := -9223372036854775808

/-- Largest value of Go `int` (64 bits). -/
def maxInt : Int := 9223372036854775807

/-- Go `int` arithmetic: the result of an operation wraps around modulo 2^64. -/
def wrapInt (x : Int) : Int :=
  (x + 9223372036854775808) % 18446744073709551616 - 9223372036854775808

/-- Go `McrvpnData`: `Count` is a Go `int`. -/
structure McrvpnData where
  Count : Int
  inRange : minInt ≤ Count ∧ Count ≤ maxInt
deriving DecidableEq

/-- A context made by `context.WithCancel`; its cancel function is identified
with it. -/
abbrev CtxId := Nat

/-- Go `Mcrvpn`: `Base.Data`, the cancel slot (`none` is `nil`) and the console,
kept as the list of its lines. -/
structure Mcrvpn where
  Data : McrvpnData
  cancel : Option CtxId
  console : List Line
deriving DecidableEq

/-- Go `map[string]string`. -/
abbrev FormData := List (String × String)

/-- Program points of `backgroundTask`, named after the statement that is
executed next. -/
inductive PC where
  /-- line 36: the loop condition, count <= e.Base.Data.Count -/
  | loopCond
  /-- line 37: waiting in select -/
  | select
  /-- line 39: e.cancel = nil in the Done case -/
  | doneClear
  /-- line 40: the cancellation line -/
  | donePrint
  /-- line 43: the progress line -/
  | timerPrint
  /-- line 46: e.cancel = nil after the loop -/
  | endClear
  /-- line 47: the completion line -/
  | endPrint
  /-- the function has returned -/
  | returned
deriving DecidableEq, Repr

/-- One goroutine running `backgroundTask(ctx)`. -/
structure Runner where
  ctx : CtxId
  count : Int
  pc : PC
deriving DecidableEq, Repr

/-- The calls made so far, in the order they happened (ghost history). -/
inductive Event where
  /-- a ShowMessage call with its title and body -/
  | showMessage (title body : String)
  /-- the cancel function of a context was called -/
  | cancelCalled (c : CtxId)
  /-- context.WithCancel returned the context c -/
  | withCancel (c : CtxId)
  /-- goroutine r was launched on context c -/
  | go (r : Nat) (c : CtxId)
  /-- goroutine r called addAndUpdateConsole with this line -/
  | console (r : Nat) (line : Line)
  /-- goroutine r returned from backgroundTask -/
  | returned (r : Nat)
deriving DecidableEq, Repr

/-- The shared state of the controller and its goroutines. -/
structure World where
  e : Mcrvpn
  ctxs : List Bool
  runners : List Runner
  hist : List Event
deriving DecidableEq

/-- What `extension.go` takes from outside: the four button tags of the package
`ui`, the result of `Base.ShowMessage`, and `setFormData`. -/
structure Host where
  /-- ui.ButtonDialogOk -/
  ButtonDialogOk : String
  /-- ui.ButtonDialogClose -/
  ButtonDialogClose : String
  /-- ui.ButtonCancel -/
  ButtonCancel : String
  /-- ui.ButtonSubmit -/
  ButtonSubmit : String
  /-- The error returned by ShowMessage(title, body), none if it is nil. -/
  ShowMessage : String → String → Option GoError
  /-- Modelled from the spec: setFormData is a method of this package that is not in
  extension.go. The spec says that submit "parses formData into a TaskConfig", that
  a parse failure is a validation error, and that on a validation error the
  controller state is unchanged; so it maps the form data and the current Data to
  either an error or the new Data. -/
  setFormData : FormData → McrvpnData → Except GoError McrvpnData

/-- The four button tags are different constants (Go rejects a switch with a
repeated constant case). -/
def Host.Distinct (h : Host) : Prop :=
  [h.ButtonDialogOk, h.ButtonDialogClose, h.ButtonCancel, h.ButtonSubmit].Nodup

instance (h : Host) : Decidable h.Distinct := by
  unfold Host.Distinct; infer_instance

/-! ## Console lines -/

/-- Line 110: the initial console. -/
def welcomeLine : Line :=
  [⟨.yellow, "Welcome to "⟩, ⟨.green, "mcrvpn\n"⟩]

/-- Line 40. -/
def canceledLine : Line :=
  [⟨.red, "Background Task Canceled"⟩]

/-- Line 43: red.Sprint(count), yellow.Sprint(" Background task ", count, " working..."). -/
def progressLine (count : Int) : Line :=
  [⟨.red, toString count⟩,
   ⟨.yellow, " Background task " ++ toString count ++ " working..."⟩]

/-- Line 47. -/
def finishedLine : Line :=
  [⟨.green, "Background Task Finished Successfully"⟩]

/-- Modelled from the spec: `addAndUpdateConsole` is a method of this package that
is not in `extension.go`. The spec describes it as `appendConsole(...parts)`, which
"appends one rendered line to the user-visible log". -/
def Mcrvpn.addAndUpdateConsole (e : Mcrvpn) (message : Line) : Mcrvpn :=
  { e with console := e.console ++ [message] }

/-! ## The controller -/

/-- Calling the cancel function of context `c`: `Done()` of `c` is closed. -/
def World.callCancel (c : CtxId) (w : World) : World :=
  { w with ctxs := w.ctxs.set c true, hist := w.hist ++ [Event.cancelCalled c] }

/-- A call of `e.ShowMessage(title, body)`; its result is `Host.ShowMessage`. -/
def World.showMessage (title body : String) (w : World) : World :=
  { w with hist := w.hist ++ [Event.showMessage title body] }

/-- Lines 84-90. -/
def stop (w : World) : Option GoError × World :=
  match w.e.cancel with
  | some c =>
    let w1 := w.callCancel c
    (none, { w1 with e := { w1.e with cancel := none } })
  | none => (none, w)

/-- Lines 93-95. -/
def Close (w : World) : Option GoError × World :=
  stop w

/-- Lines 63-75: the submit case after `setFormData` has succeeded with `d`. -/
def startTask (d : McrvpnData) (w : World) : World :=
  let w1 : World := { w with e := { w.e with Data := d } }
  let w2 : World :=
    match w1.e.cancel with
    | some c => w1.callCancel c
    | none => w1
  let c : CtxId := w2.ctxs.length
  let w3 : World := { w2 with ctxs := w2.ctxs ++ [false], hist := w2.hist ++ [Event.withCancel c] }
  let w4 : World := { w3 with e := { w3.e with cancel := some c } }
  { w4 with
    runners := w4.runners ++ [⟨c, 1, PC.loopCond⟩],
    hist := w4.hist ++ [Event.go w4.runners.length c] }

/-- Lines 51-81. -/
def SubmitData (h : Host) (button : String) (data : FormData) (w : World) :
    Option GoError × World :=
  if button = h.ButtonDialogOk ∨ button = h.ButtonDialogClose then
    (none, w)
  else if button = h.ButtonCancel then
    stop w
  else if button = h.ButtonSubmit then
    match h.setFormData data w.e.Data with
    | .error err => (some err, w.showMessage "Invalid data" err.Error)
    | .ok d => (none, startTask d w)
  else
    (h.ShowMessage ("Button " ++ button ++ " is pressed") "No action is defined for this button",
     w.showMessage ("Button " ++ button ++ " is pressed") "No action is defined for this button")

/-- Lines 103-112. -/
def NewMcrvpn : Mcrvpn :=
  { Data := ⟨4, by decide⟩, cancel := none, console := [welcomeLine] }

/-- The state right after `NewMcrvpn()`: no context, no goroutine, no call yet. -/
def World.init : World :=
  { e := NewMcrvpn, ctxs := [], runners := [], hist := [] }

/-! ## The goroutine -/

/-- Which case a `select` takes. -/
inductive Branch where
  | ctxDone
  | timer
deriving DecidableEq, Repr

/-- Goroutine `i` calls `addAndUpdateConsole(line)`. -/
def World.consoleCall (i : Nat) (line : Line) (w : World) : World :=
  { w with e := w.e.addAndUpdateConsole line, hist := w.hist ++ [Event.console i line] }

/-- Goroutine `i` moves on with local state `r`. -/
def World.setRunner (i : Nat) (r : Runner) (w : World) : World :=
  { w with runners := w.runners.set i r }

/-- Lines 35-48, one statement at a time: the next step of goroutine `i`, with
`b` the case taken if it is waiting in `select`. The Done case needs a cancelled
context, the timer case a context that is not cancelled. `none`: the goroutine
does not exist, has returned, or the case `b` cannot be taken. -/
def backgroundTaskStep (b : Branch) (i : Nat) (w : World) : Option World :=
  match w.runners[i]? with
  | none => none
  | some r =>
    match r.pc with
    | .loopCond =>
      if r.count ≤ w.e.Data.Count then some (w.setRunner i { r with pc := .select })
      else some (w.setRunner i { r with pc := .endClear })
    | .select =>
      match b with
      | .ctxDone =>
        if w.ctxs[r.ctx]? = some true then some (w.setRunner i { r with pc := .doneClear })
        else none
      | .timer =>
        if w.ctxs[r.ctx]? = some true then none
        else some (w.setRunner i { r with pc := .timerPrint })
    | .doneClear =>
      some ({ w with e := { w.e with cancel := none } }.setRunner i { r with pc := .donePrint })
    | .donePrint =>
      let w1 := w.consoleCall i canceledLine
      some ({ w1 with hist := w1.hist ++ [Event.returned i] }.setRunner i { r with pc := .returned })
    | .timerPrint =>
      some ((w.consoleCall i (progressLine r.count)).setRunner i
        { r with pc := .loopCond, count := wrapInt (r.count + 1) })
    | .endClear =>
      some ({ w with e := { w.e with cancel := none } }.setRunner i { r with pc := .endPrint })
    | .endPrint =>
      let w1 := w.consoleCall i finishedLine
      some ({ w1 with hist := w1.hist ++ [Event.returned i] }.setRunner i { r with pc := .returned })
    | .returned => none

/-! ## Interleavings -/

/-- One step of a run in which every call of the controller is executed as a whole,
with no statement of a goroutine in between. -/
inductive Action where
  /-- the host calls SubmitData(button, data) -/
  | submitData (button : String) (data : FormData)
  /-- the host calls Close() -/
  | close
  /-- goroutine i executes its next statement -/
  | run (i : Nat) (b : Branch)

/-- The state after one action, `none` if a goroutine step is not enabled. A call
is the composition of its statements (`SubmitData_is_moves`, `stop_is_moves`). -/
def step (h : Host) (a : Action) (w : World) : Option World :=
  match a with
  | .submitData button data => some (SubmitData h button data w).2
  | .close => some (Close w).2
  | .run i b => backgroundTaskStep b i w

/-- The state after a sequence of actions. -/
def exec (h : Host) : List Action → World → Option World
  | [], w => some w
  | a :: as, w =>
    match step h a w with
    | some w1 => exec h as w1
    | none => none

/-- Goroutine `i` has been started and has not returned. -/
def World.active (w : World) (i : Nat) : Prop :=
  ∃ r, w.runners[i]? = some r ∧ r.pc ≠ PC.returned

/-- How many goroutines have not returned. -/
def World.activeCount (w : World) : Nat :=
  (w.runners.filter fun r => decide (r.pc ≠ PC.returned)).length

/-- The goroutine has not yet executed its own `e.cancel = nil` (line 39 or 46). -/
def PC.beforeClear : PC → Bool
  | .loopCond => true
  | .select => true
  | .timerPrint => true
  | .doneClear => true
  | .endClear => true
  | .donePrint => false
  | .endPrint => false
  | .returned => false

/-- The line of a history entry if it is a console call of goroutine `i`. -/
def Event.lineOf (i : Nat) : Event → Option Line
  | .console r line => if r = i then some line else none
  | _ => none

/-- The console lines goroutine `i` has appended so far, in order. -/
def World.linesOf (w : World) (i : Nat) : List Line :=
  w.hist.filterMap (Event.lineOf i)

/-! ## The controller, statement by statement -/

/-- Where the controller is inside a call of `SubmitData` or `Close`: the statement
it executes next. -/
inductive Ctl where
  /-- no call is in progress -/
  | idle
  /-- line 64: the test e.cancel != nil -/
  | submitCheck
  /-- line 65: the call e.cancel() -/
  | submitCall
  /-- lines 69-70: context.WithCancel and e.cancel = cancel -/
  | submitCreate
  /-- line 73: go e.backgroundTask(ctx), with ctx the context c -/
  | submitGo (c : CtxId)
  /-- line 85: the test e.cancel != nil -/
  | stopCheck
  /-- line 86: the call e.cancel() -/
  | stopCall
  /-- line 87: e.cancel = nil -/
  | stopClear
  /-- a nil cancel function was called: the program has stopped -/
  | panicked
deriving DecidableEq

/-- The shared state together with the position of the controller. -/
structure Sys where
  world : World
  ctl : Ctl
deriving DecidableEq

/-- One move of the program: the host starts a call (only when no call is in
progress), the controller executes the next statement of its call, or a goroutine
executes its next statement. -/
inductive Move where
  /-- the host calls SubmitData(button, data): dispatch and, for submit, setFormData -/
  | submitData (button : String) (data : FormData)
  /-- the host calls Close() -/
  | close
  /-- the next statement of the call in progress -/
  | ctl
  /-- goroutine i executes its next statement -/
  | run (i : Nat) (b : Branch)

/-- The statements of lines 64-73 and 85-87, one at a time. -/
def Sys.ctlStep (s : Sys) : Option Sys :=
  match s.ctl with
  | .idle => none
  | .panicked => none
  | .submitCheck =>
    match s.world.e.cancel with
    | some _ => some { s with ctl := .submitCall }
    | none => some { s with ctl := .submitCreate }
  | .submitCall =>
    match s.world.e.cancel with
    | some c => some { world := s.world.callCancel c, ctl := .submitCreate }
    | none => some { s with ctl := .panicked }
  | .submitCreate =>
    let c : CtxId := s.world.ctxs.length
    some { world := { s.world with
                      e := { s.world.e with cancel := some c },
                      ctxs := s.world.ctxs ++ [false],
                      hist := s.world.hist ++ [Event.withCancel c] },
           ctl := .submitGo c }
  | .submitGo c =>
    some { world := { s.world with
                      runners := s.world.runners ++ [⟨c, 1, PC.loopCond⟩],
                      hist := s.world.hist ++ [Event.go s.world.runners.length c] },
           ctl := .idle }
  | .stopCheck =>
    match s.world.e.cancel with
    | some _ => some { s with ctl := .stopCall }
    | none => some { s with ctl := .idle }
  | .stopCall =>
    match s.world.e.cancel with
    | some c => some { world := s.world.callCancel c, ctl := .stopClear }
    | none => some { s with ctl := .panicked }
  | .stopClear =>
    some { world := { s.world with e := { s.world.e with cancel := none } }, ctl := .idle }

/-- The start of a call of `SubmitData` (lines 52-61): the dispatch on the button
and, for the submit button, `setFormData`. -/
def Sys.beginSubmitData (h : Host) (button : String) (data : FormData) (s : Sys) : Sys :=
  if button = h.ButtonDialogOk ∨ button = h.ButtonDialogClose then s
  else if button = h.ButtonCancel then { s with ctl := .stopCheck }
  else if button = h.ButtonSubmit then
    match h.setFormData data s.world.e.Data with
    | .error err => { s with world := s.world.showMessage "Invalid data" err.Error }
    | .ok d => { world := { s.world with e := { s.world.e with Data := d } },
                 ctl := .submitCheck }
  else
    { s with world := (s.world.showMessage ("Button " ++ button ++ " is pressed")
        "No action is defined for this button") }

/-- One move. A call starts only when no call is in progress; nothing moves after a
panic. -/
def Sys.step (h : Host) (m : Move) (s : Sys) : Option Sys :=
  match m with
  | .submitData button data =>
    if s.ctl = .idle then some (s.beginSubmitData h button data) else none
  | .close => if s.ctl = .idle then some { s with ctl := .stopCheck } else none
  | .ctl => s.ctlStep
  | .run i b =>
    if s.ctl = .panicked then none
    else (backgroundTaskStep b i s.world).map fun w => { world := w, ctl := s.ctl }

/-- The state after a sequence of moves. -/
def Sys.exec (h : Host) : List Move → Sys → Option Sys
  | [], s => some s
  | m :: ms, s =>
    match Sys.step h m s with
    | some s1 => Sys.exec h ms s1
    | none => none

/-- The state right after `NewMcrvpn()`. -/
def Sys.init : Sys :=
  { world := World.init, ctl := .idle }

/-- The states the program can be in: those some interleaving of moves reaches
from `Sys.init`. -/
def Reachable (h : Host) (s : Sys) : Prop :=
  ∃ ms, Sys.exec h ms Sys.init = some s

/-- What holds in every reachable state. Goroutine `i` runs on context `i`; the
contexts and the goroutines are as many, except between lines 70 and 73 where the
new context has no goroutine yet; a cancel function in the slot is the new one
(between lines 70 and 73), or belongs to a goroutine that has not yet cleared the
slot, and its context is not cancelled unless the controller is between the cancel
call and the next write of the slot. -/
def Sys.Inv (s : Sys) : Prop :=
  (∀ (i : Nat) (r : Runner), s.world.runners[i]? = some r → r.ctx = i) ∧
  (match s.ctl with
   | .submitGo c => s.world.ctxs.length = s.world.runners.length + 1 ∧
                    c = s.world.runners.length
   | _ => s.world.ctxs.length = s.world.runners.length) ∧
  (∀ (c : CtxId), s.world.e.cancel = some c →
    match s.ctl with
    | .submitGo c1 => c = c1 ∧ s.world.ctxs[c]? = some false
    | .submitCreate => ∃ r, s.world.runners[c]? = some r ∧ r.pc.beforeClear = true
    | .stopClear => ∃ r, s.world.runners[c]? = some r ∧ r.pc.beforeClear = true
    | _ => s.world.ctxs[c]? = some false ∧
           ∃ r, s.world.runners[c]? = some r ∧ r.pc.beforeClear = true)

/-- The lines a goroutine can still append once its context is cancelled, `r` being
its local state at that moment: nothing yet, or at most the progress line of a
timer case it had already taken, then at most one last line (the cancellation line
or the completion line). -/
def afterCancelLines (r : Runner) (extra : List Line) : Prop :=
  extra = [] ∨ extra = [canceledLine] ∨ extra = [finishedLine] ∨
  (r.pc = PC.timerPrint ∧
    (extra = [progressLine r.count] ∨ extra = [progressLine r.count, canceledLine] ∨
     extra = [progressLine r.count, finishedLine]))

/-- Goroutine `i` was in local state `r` with lines `L` when its context was found
cancelled; since then it has printed the pending progress line or not, and its
last line or not. -/
def World.cancelledRun (w : World) (i : Nat) (r : Runner) (L : List Line) : Prop :=
  ∃ r2 extra, w.runners[i]? = some r2 ∧ r2.ctx = r.ctx ∧ w.ctxs[r.ctx]? = some true ∧
    w.linesOf i = L ++ extra ∧
    ((r2.pc = PC.timerPrint ∧ r.pc = PC.timerPrint ∧ r2.count = r.count ∧ extra = []) ∨
     (r2.pc ≠ PC.timerPrint ∧ r2.pc ≠ PC.returned ∧
       (extra = [] ∨ (r.pc = PC.timerPrint ∧ extra = [progressLine r.count]))) ∨
     (r2.pc = PC.returned ∧ afterCancelLines r extra))

/-! ## A concrete host -/

/-- Value of a string of decimal digits. -/
def parseDigits : List Char → Nat → Option Nat
  | [], acc => some acc
  | c :: cs, acc => if c.isDigit then parseDigits cs (10 * acc + (c.toNat - 48)) else none

/-- Modelled from the spec: `setFormData` is not in `extension.go`. "The only
recognized field is the iteration count, parsed as a non-negative integer; parse
failure is a validation error." A form without a readable count, or with a count
that no Go `int` holds, is rejected. -/
def specSetFormData (data : FormData) (_d : McrvpnData) : Except GoError McrvpnData :=
  match data.lookup "count" with
  | none => .error ⟨"count: missing"⟩
  | some s =>
    match s.data with
    | [] => .error ⟨"count: invalid syntax"⟩
    | c :: cs =>
      match parseDigits (c :: cs) 0 with
      | some n =>
        if hn : (n : Int) ≤ maxInt then
          .ok ⟨n, Int.le_trans (by decide) (Int.ofNat_nonneg n), hn⟩
        else .error ⟨"count: value out of range"⟩
      | none => .error ⟨"count: invalid syntax"⟩

/-- A host with the tags named as in the spec, a `ShowMessage` that succeeds and
the spec's form parser. -/
def specHost : Host :=
  { ButtonDialogOk := "confirm"
    ButtonDialogClose := "dismiss"
    ButtonCancel := "cancel"
    ButtonSubmit := "submit"
    ShowMessage := fun _ _ => none
    setFormData := specSetFormData }

/-- The submit button of `specHost` pressed with the count field set to `n`. -/
def specSubmit (n : String) : Action :=
  Action.submitData specHost.ButtonSubmit [("count", n)]

/-- The cancel button of `specHost` pressed. -/
def specCancel : Action :=
  Action.submitData specHost.ButtonCancel []

/-- The state after `NewMcrvpn()` and one valid submit with count 3: one run has
been started and its goroutine has not taken a step. -/
def World.oneRun : World :=
  (SubmitData specHost specHost.ButtonSubmit [("count", "3")] World.init).2

/-- A goroutine inside the loop whose bound `Count` is `maxInt`: it is at the loop
condition, in the select or at the progress line, on a context that is not
cancelled. -/
def World.spinning (w : World) (i : Nat) : Prop :=
  w.e.Data.Count = maxInt ∧
  ∃ r, w.runners[i]? = some r ∧ w.ctxs[r.ctx]? ≠ some true ∧
    (r.pc = PC.loopCond ∨ r.pc = PC.select ∨ r.pc = PC.timerPrint) ∧
    r.count ≤ maxInt

/-- The state after `NewMcrvpn()` and one valid submit with the largest count a Go
`int` can hold. -/
def World.maxRun : World :=
  (SubmitData specHost specHost.ButtonSubmit [("count", "9223372036854775807")] World.init).2

/-- A host like `specHost` whose `ShowMessage` fails with the error "boom". -/
def failingHost : Host :=
  { specHost with ShowMessage := fun _ _ => some ⟨"boom"⟩ }

/-- The host starts a submit call on `specHost` with the count field set to `n`. -/
def specCall (n : String) : Move :=
  Move.submitData specHost.ButtonSubmit [("count", n)]

/-- The state after `NewMcrvpn()` and one complete submit with count 3. -/
def Sys.oneRun : Sys :=
  { world := World.oneRun, ctl := Ctl.idle }

/-- A second submit (count 2) at line 65, the first run having taken the timer case
of its first select. -/
def Sys.resubmitting : Sys :=
  { world := { e := { Data := ⟨2, by decide⟩, cancel := some 0, console := [welcomeLine] },
               ctxs := [false],
               runners := [⟨0, 1, PC.timerPrint⟩],
               hist := [Event.withCancel 0, Event.go 0 0] },
    ctl := Ctl.submitCall }

/-! ## Single calls of the controller -/

theorem Host.Distinct.submit_ne {h : Host} (hd : h.Distinct) :
    ¬ (h.ButtonSubmit = h.ButtonDialogOk ∨ h.ButtonSubmit = h.ButtonDialogClose) ∧
      h.ButtonSubmit ≠ h.ButtonCancel := by
  unfold Host.Distinct at hd
  simp only [List.nodup_cons, List.mem_cons, List.mem_singleton, not_or, List.not_mem_nil,
    not_false_eq_true, List.nodup_nil, and_true] at hd
  obtain ⟨⟨_, _, h1⟩, ⟨_, h2⟩, h3⟩ := hd
  refine ⟨?_, fun e => h3 e.symm⟩
  rintro (e | e)
  · exact h1 e.symm
  · exact h2 e.symm

theorem SubmitData_submit (h : Host) (hd : h.Distinct) (data : FormData) (w : World) :
    SubmitData h h.ButtonSubmit data w =
      match h.setFormData data w.e.Data with
      | .error err => (some err, w.showMessage "Invalid data" err.Error)
      | .ok d => (none, startTask d w) := by
  unfold SubmitData
  rw [if_neg hd.submit_ne.1, if_neg hd.submit_ne.2, if_pos rfl]

theorem stop_none (w : World) (hc : w.e.cancel = none) : stop w = (none, w) := by
  unfold stop
  rw [hc]

theorem stop_some (w : World) (c : CtxId) (hc : w.e.cancel = some c) :
    stop w = (none, { e := { w.e with cancel := none }, ctxs := w.ctxs.set c true,
                      runners := w.runners, hist := w.hist ++ [Event.cancelCalled c] }) := by
  unfold stop
  rw [hc]
  rfl

theorem stop_cancel_none (w : World) : (stop w).2.e.cancel = none := by
  cases hc : w.e.cancel with
  | none => rw [stop_none w hc]; exact hc
  | some c => rw [stop_some w c hc]

/-- C5. `stop()` on a state whose cancel slot is nil returns nil and leaves the
whole state as it was (no cancel function called, no console line); and from any
state, `stop()` after `stop()` returns the same result and state as one `stop()`. -/
theorem stop_without_handle (w : World) :
    (w.e.cancel = none → stop w = (none, w)) ∧ stop (stop w).2 = stop w := by
  refine ⟨stop_none w, ?_⟩
  rw [stop_none _ (stop_cancel_none w)]
  cases hc : w.e.cancel with
  | none => rw [stop_none w hc]
  | some c => rw [stop_some w c hc]

theorem stop_without_handle_witness :
    (World.init.e.cancel = none → stop World.init = (none, World.init)) ∧
      stop (stop World.init).2 = stop World.init :=
  stop_without_handle World.init

/-- C3. When `setFormData` rejects the form, `SubmitData(ButtonSubmit, data)`
returns that error, shows one message with the error text as body, and changes
nothing else: the controller (cancel slot, console, data), the contexts (no cancel
function was called) and the goroutines (none launched) are as before. -/
theorem submit_invalid (h : Host) (hd : h.Distinct) (w : World) (data : FormData)
    (err : GoError) (herr : h.setFormData data w.e.Data = .error err) :
    (SubmitData h h.ButtonSubmit data w).1 = some err ∧
    (SubmitData h h.ButtonSubmit data w).2.hist
      = w.hist ++ [Event.showMessage "Invalid data" err.Error] ∧
    (SubmitData h h.ButtonSubmit data w).2.e = w.e ∧
    (SubmitData h h.ButtonSubmit data w).2.ctxs = w.ctxs ∧
    (SubmitData h h.ButtonSubmit data w).2.runners = w.runners := by
  rw [SubmitData_submit h hd, herr]
  exact ⟨rfl, rfl, rfl, rfl, rfl⟩

/-- C6, as it holds. A button that is none of the four tags makes `SubmitData` show
the message titled "Button <button> is pressed" and return what `ShowMessage`
returned: nil if the message was shown, its error otherwise. The controller (cancel
slot, console, data), the contexts and the goroutines are unchanged. -/
theorem submit_undefined_button (h : Host) (button : String) (data : FormData) (w : World)
    (hb : button ∉ [h.ButtonDialogOk, h.ButtonDialogClose, h.ButtonCancel, h.ButtonSubmit]) :
    (SubmitData h button data w).1
      = h.ShowMessage ("Button " ++ button ++ " is pressed")
          "No action is defined for this button" ∧
    (SubmitData h button data w).2.hist
      = w.hist ++ [Event.showMessage ("Button " ++ button ++ " is pressed")
                    "No action is defined for this button"] ∧
    (SubmitData h button data w).2.e = w.e ∧
    (SubmitData h button data w).2.ctxs = w.ctxs ∧
    (SubmitData h button data w).2.runners = w.runners := by
  simp only [List.mem_cons, List.mem_singleton, not_or, List.not_mem_nil, or_false] at hb
  obtain ⟨h1, h2, h3, h4⟩ := hb
  unfold SubmitData
  rw [if_neg (by rintro (e | e); exact h1 e; exact h2 e), if_neg h3, if_neg h4]
  exact ⟨rfl, rfl, rfl, rfl, rfl⟩

theorem exec_append (h : Host) (as bs : List Action) (w : World) :
    exec h (as ++ bs) w = (exec h as w).bind (exec h bs) := by
  induction as generalizing w with
  | nil => rfl
  | cons a as ih =>
    simp only [List.cons_append, exec]
    cases step h a w with
    | none => rfl
    | some w1 => exact ih w1

theorem exec_cons (h : Host) (a : Action) (as : List Action) (w : World) :
    exec h (a :: as) w = (step h a w).bind (exec h as) := by
  simp only [exec]
  cases step h a w <;> rfl

theorem backgroundTaskStep_loopCond_enter (b : Branch) (i : Nat) (w : World) (c : CtxId) (k : Int)
    (hr : w.runners[i]? = some ⟨c, k, PC.loopCond⟩) (hk : k ≤ w.e.Data.Count) :
    backgroundTaskStep b i w = some (w.setRunner i ⟨c, k, PC.select⟩) := by
  simp [backgroundTaskStep, hr, hk]

theorem backgroundTaskStep_loopCond_leave (b : Branch) (i : Nat) (w : World) (c : CtxId) (k : Int)
    (hr : w.runners[i]? = some ⟨c, k, PC.loopCond⟩) (hk : ¬ k ≤ w.e.Data.Count) :
    backgroundTaskStep b i w = some (w.setRunner i ⟨c, k, PC.endClear⟩) := by
  simp [backgroundTaskStep, hr, hk]

theorem backgroundTaskStep_select_timer (i : Nat) (w : World) (c : CtxId) (k : Int)
    (hr : w.runners[i]? = some ⟨c, k, PC.select⟩) (hc : w.ctxs[c]? ≠ some true) :
    backgroundTaskStep Branch.timer i w = some (w.setRunner i ⟨c, k, PC.timerPrint⟩) := by
  simp [backgroundTaskStep, hr, hc]

theorem wrapInt_eq (x : Int) (hlo : minInt ≤ x) (hhi : x ≤ maxInt) : wrapInt x = x := by
  unfold wrapInt
  unfold minInt at hlo
  unfold maxInt at hhi
  omega

theorem wrapInt_range (x : Int) : minInt ≤ wrapInt x ∧ wrapInt x ≤ maxInt := by
  unfold wrapInt minInt maxInt
  omega

theorem backgroundTaskStep_timerPrint (b : Branch) (i : Nat) (w : World) (c : CtxId) (k : Int)
    (hr : w.runners[i]? = some ⟨c, k, PC.timerPrint⟩) :
    backgroundTaskStep b i w
      = some ((w.consoleCall i (progressLine k)).setRunner i
          ⟨c, wrapInt (k + 1), PC.loopCond⟩) := by
  simp [backgroundTaskStep, hr]

theorem backgroundTaskStep_endClear (b : Branch) (i : Nat) (w : World) (c : CtxId) (k : Int)
    (hr : w.runners[i]? = some ⟨c, k, PC.endClear⟩) :
    backgroundTaskStep b i w
      = some (World.setRunner i ⟨c, k, PC.endPrint⟩
          { w with e := { w.e with cancel := none } }) := by
  simp [backgroundTaskStep, hr]

theorem backgroundTaskStep_endPrint (b : Branch) (i : Nat) (w : World) (c : CtxId) (k : Int)
    (hr : w.runners[i]? = some ⟨c, k, PC.endPrint⟩) :
    backgroundTaskStep b i w
      = some (World.setRunner i ⟨c, k, PC.returned⟩
          { w.consoleCall i finishedLine with
            hist := (w.consoleCall i finishedLine).hist ++ [Event.returned i] }) := by
  simp [backgroundTaskStep, hr]

theorem backgroundTaskStep_returned (b : Branch) (i : Nat) (w : World) (c : CtxId) (k : Int)
    (hr : w.runners[i]? = some ⟨c, k, PC.returned⟩) :
    backgroundTaskStep b i w = none := by
  simp [backgroundTaskStep, hr]

theorem setRunner_get (i : Nat) (r r0 : Runner) (w : World) (hr : w.runners[i]? = some r0) :
    (w.setRunner i r).runners[i]? = some r := by
  have hlt : i < w.runners.length := (List.getElem?_eq_some.1 hr).1
  simp [World.setRunner, hlt]

/-- One turn of the loop with the timer case: condition, select, progress line. -/
theorem exec_timer_turn (h : Host) (i : Nat) (w : World) (c : CtxId) (k : Int)
    (hr : w.runners[i]? = some ⟨c, k, PC.loopCond⟩) (hk : k ≤ w.e.Data.Count)
    (hcx : w.ctxs[c]? ≠ some true) (hlo : minInt ≤ k) (hhi : k < maxInt) :
    exec h (List.replicate 3 (Action.run i Branch.timer)) w
      = some { e := w.e.addAndUpdateConsole (progressLine k),
               ctxs := w.ctxs,
               runners := w.runners.set i ⟨c, k + 1, PC.loopCond⟩,
               hist := w.hist ++ [Event.console i (progressLine k)] } := by
  have h1 := backgroundTaskStep_loopCond_enter Branch.timer i w c k hr hk
  have hr1 := setRunner_get i ⟨c, k, PC.select⟩ _ w hr
  have h2 := backgroundTaskStep_select_timer i _ c k hr1 hcx
  have hr2 := setRunner_get i ⟨c, k, PC.timerPrint⟩ _ _ hr1
  have h3 := backgroundTaskStep_timerPrint Branch.timer i _ c k hr2
  have hw : wrapInt (k + 1) = k + 1 :=
    wrapInt_eq (k + 1) (by omega) (by omega)
  simp only [List.replicate, exec, step, h1, h2, h3, hw]
  simp [World.setRunner, World.consoleCall, List.set_set]

/-- Leaving the loop: condition, `e.cancel = nil`, completion line. -/
theorem exec_finish (h : Host) (i : Nat) (w : World) (c : CtxId) (k : Int)
    (hr : w.runners[i]? = some ⟨c, k, PC.loopCond⟩) (hk : ¬ k ≤ w.e.Data.Count) :
    exec h (List.replicate 3 (Action.run i Branch.timer)) w
      = some { e := { Data := w.e.Data, cancel := none,
                      console := w.e.console ++ [finishedLine] },
               ctxs := w.ctxs,
               runners := w.runners.set i ⟨c, k, PC.returned⟩,
               hist := w.hist ++ [Event.console i finishedLine, Event.returned i] } := by
  have h1 := backgroundTaskStep_loopCond_leave Branch.timer i w c k hr hk
  have hr1 := setRunner_get i ⟨c, k, PC.endClear⟩ _ w hr
  have h2 := backgroundTaskStep_endClear Branch.timer i _ c k hr1
  have hr2 : (World.setRunner i ⟨c, k, PC.endPrint⟩
      { w.setRunner i ⟨c, k, PC.endClear⟩ with
        e := { (w.setRunner i ⟨c, k, PC.endClear⟩).e with cancel := none } }).runners[i]?
      = some ⟨c, k, PC.endPrint⟩ := setRunner_get i _ ⟨c, k, PC.endClear⟩ _ hr1
  have h3 := backgroundTaskStep_endPrint Branch.timer i _ c k hr2
  simp only [List.replicate, exec, step, h1, h2, h3]
  simp [World.setRunner, World.consoleCall, Mcrvpn.addAndUpdateConsole, List.set_set]

/-- The rest of an uninterrupted run with `m` turns left. -/
theorem exec_timer_rest (h : Host) (i : Nat) (c : CtxId) :
    ∀ (m : Nat) (k : Int) (w : World), w.runners[i]? = some ⟨c, k, PC.loopCond⟩ →
      w.e.Data.Count + 1 = k + m → w.ctxs[c]? ≠ some true → minInt ≤ k →
      w.e.Data.Count < maxInt →
      exec h (List.replicate (3 * m + 3) (Action.run i Branch.timer)) w
        = some { e := { Data := w.e.Data, cancel := none,
                        console := w.e.console
                          ++ (List.range m).map (fun (j : Nat) => progressLine (k + (j : Int)))
                          ++ [finishedLine] },
                 ctxs := w.ctxs,
                 runners := w.runners.set i ⟨c, k + m, PC.returned⟩,
                 hist := w.hist
                   ++ (List.range m).map (fun (j : Nat) => Event.console i (progressLine (k + (j : Int))))
                   ++ [Event.console i finishedLine, Event.returned i] } := by
  intro m
  induction m with
  | zero =>
    intro k w hr hm _ _ _
    have hk : ¬ k ≤ w.e.Data.Count := by simp at hm; omega
    simpa using exec_finish h i w c k hr hk
  | succ m ih =>
    intro k w hr hm hcx hlo hC
    have hk : k ≤ w.e.Data.Count := by push_cast at hm; omega
    have hsplit : 3 * (m + 1) + 3 = 3 + (3 * m + 3) := by ring
    rw [hsplit, List.replicate_add, exec_append,
      exec_timer_turn h i w c k hr hk hcx hlo (by omega)]
    have hlt : i < w.runners.length := (List.getElem?_eq_some.1 hr).1
    simp only [Option.bind]
    rw [ih (k + 1)]
    · simp only [List.range_succ_eq_map, List.map_cons, List.map_map, List.set_set,
        Mcrvpn.addAndUpdateConsole]
      have e1 : ∀ j : Nat, k + 1 + (j : Int) = k + ((j + 1 : Nat) : Int) := by
        intro j; push_cast; ring
      have e2 : k + 1 + (m : Int) = k + ((m + 1 : Nat) : Int) := by push_cast; ring
      simp [Function.comp_def, e1, e2]
    · simp [hlt]
    · simp only [Mcrvpn.addAndUpdateConsole]; push_cast at hm; omega
    · exact hcx
    · omega
    · simpa [Mcrvpn.addAndUpdateConsole] using hC

theorem range_shift_one (α : Type) (f : Int → α) (n : Nat) :
    (List.range n).map (fun (j : Nat) => f (1 + (j : Int)))
      = (List.range' 1 n).map (fun (j : Nat) => f (j : Int)) := by
  rw [List.range'_eq_map_range, List.map_map]
  apply List.map_congr_left
  intro j _
  simp

/-! ## C1: the uninterrupted run -/

theorem spinning_step (h : Host) (i : Nat) (w : World) (hw : w.spinning i) :
    ∃ w1, step h (Action.run i Branch.timer) w = some w1 ∧ w1.spinning i ∧
      w1.e.cancel = w.e.cancel := by
  obtain ⟨hC, r, hr, hcx, hpc, hcount⟩ := hw
  obtain ⟨c, k, pc⟩ := r
  have hlt : i < w.runners.length := (List.getElem?_eq_some.1 hr).1
  simp only at hpc hcx hcount
  rcases hpc with hp | hp | hp
  · subst hp
    refine ⟨_, backgroundTaskStep_loopCond_enter Branch.timer i w c k hr (by rw [hC]; exact hcount),
      ⟨hC, ⟨c, k, PC.select⟩, by simp [World.setRunner, hlt], hcx, Or.inr (Or.inl rfl), hcount⟩,
      rfl⟩
  · subst hp
    refine ⟨_, backgroundTaskStep_select_timer i w c k hr hcx,
      ⟨hC, ⟨c, k, PC.timerPrint⟩, by simp [World.setRunner, hlt], hcx, Or.inr (Or.inr rfl),
        hcount⟩, rfl⟩
  · subst hp
    refine ⟨_, backgroundTaskStep_timerPrint Branch.timer i w c k hr,
      ⟨hC, ⟨c, wrapInt (k + 1), PC.loopCond⟩,
        by simp [World.setRunner, World.consoleCall, hlt], hcx, Or.inl rfl,
        (wrapInt_range (k + 1)).2⟩, rfl⟩

theorem spinning_exec (h : Host) (i : Nat) :
    ∀ (n : Nat) (w : World), w.spinning i →
      ∃ w1, exec h (List.replicate n (Action.run i Branch.timer)) w = some w1 ∧
        w1.spinning i ∧ w1.e.cancel = w.e.cancel := by
  intro n
  induction n with
  | zero =>
    intro w hw
    exact ⟨w, rfl, hw, rfl⟩
  | succ n ih =>
    intro w hw
    obtain ⟨w1, hs, hw1, hc1⟩ := spinning_step h i w hw
    obtain ⟨w2, hx, hw2, hc2⟩ := ih w1 hw1
    refine ⟨w2, ?_, hw2, hc2.trans hc1⟩
    rw [List.replicate_succ, exec_cons, hs]
    exact hx

/-- C1 as written fails at N = 9223372036854775807, the largest Go `int`. With
that count the loop condition `count <= Count` holds for every value of `count`
(`count++` wraps around), so a run whose selects all take the timer case never
leaves the loop: after any number of statements the goroutine has not returned
and the cancel slot still holds its cancel function. -/
theorem loop_never_exits_at_maxInt :
    World.maxRun.e.Data.Count = 9223372036854775807 ∧
    World.maxRun.runners[0]? = some ⟨0, 1, PC.loopCond⟩ ∧
    ∀ n : Nat, ∃ w1,
      exec specHost (List.replicate n (Action.run 0 Branch.timer)) World.maxRun = some w1 ∧
      (∃ r, w1.runners[0]? = some r ∧
        (r.pc = PC.loopCond ∨ r.pc = PC.select ∨ r.pc = PC.timerPrint)) ∧
      w1.e.cancel = some 0 := by
  refine ⟨by decide, by decide, ?_⟩
  intro n
  have h0 : World.maxRun.spinning 0 :=
    ⟨by decide, ⟨0, 1, PC.loopCond⟩, by decide, by decide, Or.inl rfl, by decide⟩
  obtain ⟨w1, hx, ⟨_, r, hr, _, hpc, _⟩, hc⟩ := spinning_exec specHost 0 n World.maxRun h0
  exact ⟨w1, hx, ⟨r, hr, hpc⟩, hc.trans (by decide)⟩

/-- C1, as it holds. A goroutine at the start of `backgroundTask` on a context that
is not cancelled, with `Data.Count = N` and N below the largest Go `int`, run with
every select taking the timer case, terminates after `3 * N + 3` statements; it
has appended the progress lines of steps 1, ..., N in that order (the step number
in red, then " Background task <step> working..." in yellow) and then the green
line "Background Task Finished Successfully", and nothing else; the cancel slot
is nil; it takes no further step. -/
theorem backgroundTask_uninterrupted (h : Host) (N : Nat) (w : World) (i : Nat) (c : CtxId)
    (hr : w.runners[i]? = some ⟨c, 1, PC.loopCond⟩) (hN : w.e.Data.Count = N)
    (hmax : (N : Int) < 9223372036854775807) (hcx : w.ctxs[c]? = some false) :
    ∃ w1, exec h (List.replicate (3 * N + 3) (Action.run i Branch.timer)) w = some w1 ∧
      w1.e.console
        = w.e.console
            ++ (List.range' 1 N).map (fun (j : Nat) =>
                ([⟨Color.red, toString (j : Int)⟩,
                  ⟨Color.yellow, " Background task " ++ toString (j : Int) ++ " working..."⟩]
                  : Line))
            ++ [[⟨Color.green, "Background Task Finished Successfully"⟩]] ∧
      w1.hist
        = w.hist
            ++ (List.range' 1 N).map (fun (j : Nat) => Event.console i
                [⟨Color.red, toString (j : Int)⟩,
                 ⟨Color.yellow, " Background task " ++ toString (j : Int) ++ " working..."⟩])
            ++ [Event.console i [⟨Color.green, "Background Task Finished Successfully"⟩],
                Event.returned i] ∧
      w1.e.cancel = none ∧
      w1.runners[i]? = some ⟨c, 1 + N, PC.returned⟩ ∧
      ∀ b, step h (Action.run i b) w1 = none := by
  have hlt : i < w.runners.length := (List.getElem?_eq_some.1 hr).1
  have hrest := exec_timer_rest h i c N 1 w hr (by rw [hN]; ring) (by rw [hcx]; simp)
    (by decide) (by rw [hN]; exact hmax)
  refine ⟨_, hrest, ?_, ?_, rfl, ?_, ?_⟩
  · simp only [range_shift_one _ (fun k => progressLine k)]
    rfl
  · simp only [range_shift_one _ (fun k => Event.console i (progressLine k))]
    rfl
  · simp [hlt]
  · intro b
    exact backgroundTaskStep_returned b i _ c (1 + N) (by simp [hlt])

theorem backgroundTask_uninterrupted_witness :
    ∃ w1, exec specHost (List.replicate (3 * 2 + 3) (Action.run 0 Branch.timer))
            (SubmitData specHost "submit" [("count", "2")] World.init).2 = some w1 ∧
      w1.e.console
        = [[⟨Color.yellow, "Welcome to "⟩, ⟨Color.green, "mcrvpn\n"⟩],
           [⟨Color.red, "1"⟩, ⟨Color.yellow, " Background task 1 working..."⟩],
           [⟨Color.red, "2"⟩, ⟨Color.yellow, " Background task 2 working..."⟩],
           [⟨Color.green, "Background Task Finished Successfully"⟩]] ∧
      w1.hist
        = [Event.withCancel 0, Event.go 0 0,
           Event.console 0 [⟨Color.red, "1"⟩, ⟨Color.yellow, " Background task 1 working..."⟩],
           Event.console 0 [⟨Color.red, "2"⟩, ⟨Color.yellow, " Background task 2 working..."⟩],
           Event.console 0 [⟨Color.green, "Background Task Finished Successfully"⟩],
           Event.returned 0] ∧
      w1.e.cancel = none ∧
      w1.runners[0]? = some ⟨0, 3, PC.returned⟩ ∧
      ∀ b, step specHost (Action.run 0 b) w1 = none :=
  backgroundTask_uninterrupted specHost 2
    (SubmitData specHost "submit" [("count", "2")] World.init).2 0 0 (by decide) (by decide)
    (by decide) (by decide)

/-! ## C2: cancelling a run that waits in its select -/

theorem startTask_eq (d : McrvpnData) (w : World) :
    startTask d w
      = { e := { Data := d, cancel := some w.ctxs.length, console := w.e.console },
          ctxs := (match w.e.cancel with
                   | some c => w.ctxs.set c true
                   | none => w.ctxs) ++ [false],
          runners := w.runners ++ [⟨w.ctxs.length, 1, PC.loopCond⟩],
          hist := w.hist ++ (match w.e.cancel with
                             | some c => [Event.cancelCalled c]
                             | none => [])
                    ++ [Event.withCancel w.ctxs.length,
                        Event.go w.runners.length w.ctxs.length] } := by
  cases hc : w.e.cancel with
  | none => simp [startTask, hc]
  | some c => simp [startTask, hc, World.callCancel]

/-- One statement of goroutine `j`: only its own entry of `runners` changes, the
contexts stay, the history grows by its own calls; the slot is either cleared by
line 39 or 46, or left alone. -/
theorem backgroundTaskStep_shape (b : Branch) (j : Nat) (w w1 : World)
    (hs : backgroundTaskStep b j w = some w1) :
    ∃ r r1 ev, w.runners[j]? = some r ∧ w1.runners = w.runners.set j r1 ∧
      w1.ctxs = w.ctxs ∧ w1.hist = w.hist ++ ev ∧ r1.ctx = r.ctx ∧
      (∀ i, i ≠ j → ev.filterMap (Event.lineOf i) = []) ∧
      (w1.e.cancel = none ∨
        (w1.e.cancel = w.e.cancel ∧ (r.pc.beforeClear = true → r1.pc.beforeClear = true))) ∧
      (r.pc = PC.doneClear → r1.pc = PC.donePrint ∧ ev = []) ∧
      (r.pc = PC.donePrint →
        r1.pc = PC.returned ∧ ev = [Event.console j canceledLine, Event.returned j]) ∧
      r.pc ≠ PC.returned := by
  unfold backgroundTaskStep at hs
  cases hr : w.runners[j]? with
  | none => simp [hr] at hs
  | some r =>
    obtain ⟨c, k, pc⟩ := r
    cases pc
    case loopCond =>
      simp only [hr] at hs
      split at hs <;> cases hs <;>
        exact ⟨_, _, [], rfl, rfl, rfl, by simp [World.setRunner], rfl, by simp,
          Or.inr ⟨rfl, by simp [PC.beforeClear]⟩, by simp, by simp, by simp⟩
    case select =>
      simp only [hr] at hs
      cases b
      case ctxDone =>
        simp only at hs
        split at hs
        · cases hs
          exact ⟨_, _, [], rfl, rfl, rfl, by simp [World.setRunner], rfl, by simp,
            Or.inr ⟨rfl, by simp [PC.beforeClear]⟩, by simp, by simp, by simp⟩
        · cases hs
      case timer =>
        simp only at hs
        split at hs
        · cases hs
        · cases hs
          exact ⟨_, _, [], rfl, rfl, rfl, by simp [World.setRunner], rfl, by simp,
            Or.inr ⟨rfl, by simp [PC.beforeClear]⟩, by simp, by simp, by simp⟩
    case doneClear =>
      simp only [hr] at hs
      cases hs
      exact ⟨_, _, [], rfl, rfl, rfl, by simp [World.setRunner], rfl, by simp,
        Or.inl rfl, by simp, by simp, by simp⟩
    case donePrint =>
      simp only [hr] at hs
      cases hs
      exact ⟨_, _, [Event.console j canceledLine, Event.returned j], rfl, rfl, rfl,
        by simp [World.setRunner, World.consoleCall], rfl,
        by intro i hij; simp [List.filterMap, Event.lineOf, Ne.symm hij],
        Or.inr ⟨rfl, by simp [PC.beforeClear]⟩, by simp, by simp, by simp⟩
    case timerPrint =>
      simp only [hr] at hs
      cases hs
      exact ⟨_, _, [Event.console j (progressLine k)], rfl, rfl, rfl,
        by simp [World.setRunner, World.consoleCall], rfl,
        by intro i hij; simp [List.filterMap, Event.lineOf, Ne.symm hij],
        Or.inr ⟨rfl, by simp [PC.beforeClear]⟩, by simp, by simp, by simp⟩
    case endClear =>
      simp only [hr] at hs
      cases hs
      exact ⟨_, _, [], rfl, rfl, rfl, by simp [World.setRunner], rfl, by simp,
        Or.inl rfl, by simp, by simp, by simp⟩
    case endPrint =>
      simp only [hr] at hs
      cases hs
      exact ⟨_, _, [Event.console j finishedLine, Event.returned j], rfl, rfl, rfl,
        by simp [World.setRunner, World.consoleCall], rfl,
        by intro i hij; simp [List.filterMap, Event.lineOf, Ne.symm hij],
        Or.inr ⟨rfl, by simp [PC.beforeClear]⟩, by simp, by simp, by simp⟩
    case returned =>
      simp [hr] at hs

/-! ## The invariant of the reachable states -/

/-- What a statement of a goroutine keeps: contexts, number of goroutines, the
context of each goroutine, and for a slot that is still non-nil its content and
the fact that its goroutine has not cleared the slot. -/
theorem backgroundTaskStep_keeps (b : Branch) (j : Nat) (w w1 : World)
    (hs : backgroundTaskStep b j w = some w1) :
    w1.ctxs = w.ctxs ∧ w1.runners.length = w.runners.length ∧
    ((∀ (i : Nat) (r : Runner), w.runners[i]? = some r → r.ctx = i) →
      ∀ (i : Nat) (r : Runner), w1.runners[i]? = some r → r.ctx = i) ∧
    (∀ (c : CtxId), w1.e.cancel = some c →
      w.e.cancel = some c ∧
      ((∃ r, w.runners[c]? = some r ∧ r.pc.beforeClear = true) →
        ∃ r, w1.runners[c]? = some r ∧ r.pc.beforeClear = true)) := by
  obtain ⟨r, r1, ev, hr, hrs, hcs, _, hctx, _, hcancel, _, _, _⟩ :=
    backgroundTaskStep_shape b j w w1 hs
  have hlt : j < w.runners.length := (List.getElem?_eq_some.1 hr).1
  refine ⟨hcs, by rw [hrs, List.length_set], ?_, ?_⟩
  · intro hrc i r2 hr2
    rw [hrs] at hr2
    by_cases hij : j = i
    · subst hij
      rw [List.getElem?_set_self hlt] at hr2
      cases hr2
      rw [hctx]
      exact hrc j r hr
    · rw [List.getElem?_set_ne hij] at hr2
      exact hrc i r2 hr2
  · intro c hc
    rcases hcancel with hnone | ⟨hsame, hpc⟩
    · rw [hnone] at hc; cases hc
    · rw [hsame] at hc
      refine ⟨hc, ?_⟩
      rintro ⟨r0, hr0, hb0⟩
      rw [hrs]
      by_cases hjc : j = c
      · subst hjc
        rw [hr] at hr0
        cases hr0
        exact ⟨r1, List.getElem?_set_self hlt, hpc hb0⟩
      · exact ⟨r0, by rw [List.getElem?_set_ne hjc]; exact hr0, hb0⟩

theorem Inv_init : Sys.init.Inv := by
  refine ⟨?_, rfl, ?_⟩
  · intro i r hr
    simp [Sys.init, World.init] at hr
  · intro c hc
    simp [Sys.init, World.init, NewMcrvpn] at hc

theorem Inv_run (b : Branch) (j : Nat) (w w1 : World) (ctl : Ctl)
    (hs : backgroundTaskStep b j w = some w1) (hi : Sys.Inv ⟨w, ctl⟩) : Sys.Inv ⟨w1, ctl⟩ := by
  obtain ⟨hcs, hlen, hctx, hslot⟩ := backgroundTaskStep_keeps b j w w1 hs
  obtain ⟨h1, h2, h3⟩ := hi
  refine ⟨hctx h1, ?_, ?_⟩
  · cases ctl <;> simp only [hcs, hlen] at h2 ⊢ <;> exact h2
  · intro c hc
    obtain ⟨hc0, hkeep⟩ := hslot c hc
    have h30 := h3 c hc0
    cases ctl <;> simp only [hcs] at h30 ⊢
    case submitGo c1 => exact h30
    case submitCreate => exact hkeep h30
    case stopClear => exact hkeep h30
    all_goals exact ⟨h30.1, hkeep h30.2⟩

theorem Inv_begin (h : Host) (button : String) (data : FormData) (w : World)
    (hi : Sys.Inv ⟨w, Ctl.idle⟩) :
    (Sys.beginSubmitData h button data ⟨w, Ctl.idle⟩).Inv := by
  unfold Sys.beginSubmitData
  split
  · exact hi
  split
  · exact hi
  split
  · cases h.setFormData data w.e.Data with
    | error err => exact hi
    | ok d => exact hi
  · exact hi

theorem Inv_ctl (s s1 : Sys) (hs : s.ctlStep = some s1) (hi : s.Inv) : s1.Inv := by
  obtain ⟨w, ctl⟩ := s
  obtain ⟨h1, h2, h3⟩ := hi
  unfold Sys.ctlStep at hs
  cases ctl
  case idle => cases hs
  case panicked => cases hs
  case submitCheck =>
    simp only at hs h2 h3
    cases hc : w.e.cancel with
    | none =>
      rw [hc] at hs
      cases hs
      exact ⟨h1, h2, fun c hc1 => by rw [hc] at hc1; cases hc1⟩
    | some c =>
      rw [hc] at hs
      cases hs
      exact ⟨h1, h2, h3⟩
  case submitCall =>
    simp only at hs h2 h3
    cases hc : w.e.cancel with
    | none =>
      rw [hc] at hs
      cases hs
      exact ⟨h1, h2, fun c hc1 => by rw [hc] at hc1; cases hc1⟩
    | some c =>
      rw [hc] at hs
      cases hs
      refine ⟨h1, ?_, ?_⟩
      · simpa [World.callCancel] using h2
      · intro c1 hc1
        exact (h3 c1 hc1).2
  case submitCreate =>
    simp only at hs h2 h3
    cases hs
    refine ⟨h1, ?_, ?_⟩
    · simp only [List.length_append, List.length_singleton]
      exact ⟨by rw [h2], h2⟩
    · intro c hc
      simp only [Option.some.injEq] at hc
      subst hc
      exact ⟨rfl, by simp⟩
  case submitGo c =>
    simp only at hs h2 h3
    cases hs
    obtain ⟨hlen, hc⟩ := h2
    refine ⟨?_, ?_, ?_⟩
    · intro i r hr
      simp only at hr
      by_cases hlt : i < w.runners.length
      · rw [List.getElem?_append_left hlt] at hr
        exact h1 i r hr
      · have hle : w.runners.length ≤ i := Nat.le_of_not_lt hlt
        rw [List.getElem?_append_right hle] at hr
        by_cases h0 : i - w.runners.length = 0
        · rw [h0] at hr
          simp only [List.getElem?_cons_zero, Option.some.injEq] at hr
          subst hr
          show c = i
          rw [hc]
          exact Nat.le_antisymm hle (Nat.le_of_sub_eq_zero h0)
        · have hnone : ([({ ctx := c, count := 1, pc := PC.loopCond } : Runner)])[
              i - w.runners.length]? = none := by
            apply List.getElem?_eq_none
            simp only [List.length_singleton]
            omega
          rw [hnone] at hr
          cases hr
    · simp only [List.length_append, List.length_singleton]
      exact hlen
    · intro c0 hc0
      obtain ⟨he, hf⟩ := h3 c0 hc0
      subst he
      refine ⟨hf, ⟨c0, 1, PC.loopCond⟩, ?_, rfl⟩
      simp only
      rw [hc, List.getElem?_append_right (Nat.le_refl _)]
      simp
  case stopCheck =>
    simp only at hs h2 h3
    cases hc : w.e.cancel with
    | none =>
      rw [hc] at hs
      cases hs
      exact ⟨h1, h2, fun c hc1 => by rw [hc] at hc1; cases hc1⟩
    | some c =>
      rw [hc] at hs
      cases hs
      exact ⟨h1, h2, h3⟩
  case stopCall =>
    simp only at hs h2 h3
    cases hc : w.e.cancel with
    | none =>
      rw [hc] at hs
      cases hs
      exact ⟨h1, h2, fun c hc1 => by rw [hc] at hc1; cases hc1⟩
    | some c =>
      rw [hc] at hs
      cases hs
      refine ⟨h1, ?_, ?_⟩
      · simpa [World.callCancel] using h2
      · intro c1 hc1
        exact (h3 c1 hc1).2
  case stopClear =>
    simp only at hs h2 h3
    cases hs
    exact ⟨h1, h2, fun c hc1 => by cases hc1⟩

theorem Inv_step (h : Host) (m : Move) (s s1 : Sys) (hs : Sys.step h m s = some s1)
    (hi : s.Inv) : s1.Inv := by
  obtain ⟨w, ctl⟩ := s
  cases m with
  | submitData button data =>
    simp only [Sys.step] at hs
    split at hs
    · rename_i hidle
      subst hidle
      cases hs
      exact Inv_begin h button data w hi
    · cases hs
  | close =>
    simp only [Sys.step] at hs
    split at hs
    · rename_i hidle
      subst hidle
      cases hs
      exact hi
    · cases hs
  | ctl => exact Inv_ctl _ _ hs hi
  | run i b =>
    simp only [Sys.step] at hs
    split at hs
    · cases hs
    · cases hb : backgroundTaskStep b i w with
      | none => rw [hb] at hs; cases hs
      | some w1 =>
        rw [hb] at hs
        cases hs
        exact Inv_run b i w w1 ctl hb hi

theorem Sys.exec_step_first (h : Host) (m : Move) (ms : List Move) (s : Sys) :
    Sys.exec h (m :: ms) s = (Sys.step h m s).bind (Sys.exec h ms) := by
  simp only [Sys.exec]
  cases Sys.step h m s <;> rfl

theorem Inv_exec (h : Host) (ms : List Move) :
    ∀ (s s1 : Sys), Sys.exec h ms s = some s1 → s.Inv → s1.Inv := by
  induction ms with
  | nil =>
    intro s s1 hx hi
    simp only [Sys.exec, Option.some.injEq] at hx
    subst hx
    exact hi
  | cons m ms ih =>
    intro s s1 hx hi
    rw [Sys.exec_step_first] at hx
    cases hs : Sys.step h m s with
    | none => rw [hs] at hx; cases hx
    | some s2 =>
      rw [hs] at hx
      exact ih s2 s1 hx (Inv_step h m s s2 hs hi)

theorem Reachable.inv {h : Host} {s : Sys} (hr : Reachable h s) : s.Inv := by
  obtain ⟨ms, hms⟩ := hr
  exact Inv_exec h ms Sys.init s hms Inv_init

theorem beforeClear_ne_returned (pc : PC) (hb : pc.beforeClear = true) : pc ≠ PC.returned := by
  intro hp
  rw [hp] at hb
  cases hb

/-! ## C8: the slot and the active goroutines -/

/-- C8, as it holds. In every state reachable by any interleaving of the statements
of the controller's calls and of the goroutines, in which no call is in progress,
a non-nil cancel slot holds the cancel function of a goroutine that is active
(started, not returned), whose context is not cancelled, and which is the only
goroutine on that context. When `stop()` returns the slot is nil. When a goroutine
returns, the slot does not hold that goroutine's cancel function. -/
theorem slot_owner_is_active (h : Host) (s : Sys) (hr : Reachable h s) :
    (s.ctl = Ctl.idle → ∀ c, s.world.e.cancel = some c →
      s.world.active c ∧ s.world.ctxs[c]? = some false ∧
      (∃ r, s.world.runners[c]? = some r ∧ r.ctx = c) ∧
      (∀ (j : Nat) (r : Runner), s.world.runners[j]? = some r → r.ctx = c → j = c)) ∧
    (∀ s1, (s.ctl = Ctl.stopCheck ∨ s.ctl = Ctl.stopClear) →
      Sys.step h Move.ctl s = some s1 → s1.ctl = Ctl.idle → s1.world.e.cancel = none) ∧
    (∀ (i : Nat) (b : Branch) (s1 : Sys) (r1 : Runner),
      Sys.step h (Move.run i b) s = some s1 →
      s1.world.runners[i]? = some r1 → r1.pc = PC.returned →
      s1.world.e.cancel ≠ some r1.ctx) := by
  have hinv := hr.inv
  refine ⟨?_, ?_, ?_⟩
  · intro hidle c hc
    obtain ⟨w, ctl⟩ := s
    simp only at hidle hc
    subst hidle
    obtain ⟨h1, _, h3⟩ := hinv
    obtain ⟨hfalse, r, hrr, hb⟩ := h3 c hc
    refine ⟨⟨r, hrr, beforeClear_ne_returned r.pc hb⟩, hfalse, ⟨r, hrr, h1 c r hrr⟩, ?_⟩
    intro j r2 hr2 hc2
    rw [← hc2]
    exact (h1 j r2 hr2).symm
  · intro s1 hctl hs hidle
    obtain ⟨w, ctl⟩ := s
    simp only at hctl
    simp only [Sys.step, Sys.ctlStep] at hs
    rcases hctl with hctl | hctl
    · subst hctl
      simp only at hs
      cases hc : w.e.cancel with
      | none =>
        rw [hc] at hs
        cases hs
        exact hc
      | some c =>
        rw [hc] at hs
        cases hs
        cases hidle
    · subst hctl
      cases hs
      rfl
  · intro i b s1 r1 hs hr1 hret hc
    have hinv1 := Inv_step h (Move.run i b) s s1 hs hinv
    obtain ⟨w1, ctl1⟩ := s1
    obtain ⟨h1, h2, h3⟩ := hinv1
    simp only at hr1 hc h1 h2 h3
    have hci : r1.ctx = i := h1 i r1 hr1
    rw [hci] at hc
    have hlt : i < w1.runners.length := (List.getElem?_eq_some.1 hr1).1
    have h3i := h3 i hc
    cases ctl1
    case submitGo c1 =>
      simp only at h2 h3i
      have : i = w1.runners.length := h3i.1.trans h2.2
      omega
    case submitCreate =>
      obtain ⟨r, hrr, hb⟩ := h3i
      rw [hr1] at hrr
      cases hrr
      exact beforeClear_ne_returned _ hb hret
    case stopClear =>
      obtain ⟨r, hrr, hb⟩ := h3i
      rw [hr1] at hrr
      cases hrr
      exact beforeClear_ne_returned _ hb hret
    all_goals
      obtain ⟨_, r, hrr, hb⟩ := h3i
      rw [hr1] at hrr
      cases hrr
      exact beforeClear_ne_returned _ hb hret

/-! ## The lines of a goroutine whose context is cancelled -/

/-- One statement of goroutine `j`, seen from its own lines: which line it appends
and where it goes next. -/
theorem backgroundTaskStep_lines (b : Branch) (j : Nat) (w w1 : World)
    (hs : backgroundTaskStep b j w = some w1) :
    ∃ r r1 own, w.runners[j]? = some r ∧ w1.runners[j]? = some r1 ∧ r1.ctx = r.ctx ∧
      w1.linesOf j = w.linesOf j ++ own ∧
      (r.pc = PC.timerPrint → own = [progressLine r.count] ∧ r1.pc = PC.loopCond) ∧
      (r.pc = PC.donePrint → own = [canceledLine] ∧ r1.pc = PC.returned) ∧
      (r.pc = PC.endPrint → own = [finishedLine] ∧ r1.pc = PC.returned) ∧
      (r.pc = PC.loopCond ∨ r.pc = PC.select ∨ r.pc = PC.doneClear ∨ r.pc = PC.endClear →
        own = [] ∧ r1.pc ≠ PC.returned ∧
        (r1.pc = PC.timerPrint → w.ctxs[r.ctx]? ≠ some true)) ∧
      r.pc ≠ PC.returned := by
  unfold backgroundTaskStep at hs
  cases hr : w.runners[j]? with
  | none => simp [hr] at hs
  | some r =>
    obtain ⟨c, k, pc⟩ := r
    have hlt : j < w.runners.length := (List.getElem?_eq_some.1 hr).1
    cases pc
    case loopCond =>
      simp only [hr] at hs
      split at hs
      · cases hs
        exact ⟨_, ⟨c, k, PC.select⟩, [], rfl, by simp [World.setRunner, World.consoleCall, hlt], rfl,
          by simp [World.linesOf, World.setRunner, World.consoleCall, List.filterMap_append,
            Event.lineOf],
          by simp, by simp, by simp, by simp, by simp⟩
      · cases hs
        exact ⟨_, ⟨c, k, PC.endClear⟩, [], rfl, by simp [World.setRunner, World.consoleCall, hlt], rfl,
          by simp [World.linesOf, World.setRunner, World.consoleCall, List.filterMap_append,
            Event.lineOf],
          by simp, by simp, by simp, by simp, by simp⟩
    case select =>
      simp only [hr] at hs
      cases b
      case ctxDone =>
        simp only at hs
        split at hs
        · cases hs
          exact ⟨_, ⟨c, k, PC.doneClear⟩, [], rfl, by simp [World.setRunner, World.consoleCall, hlt], rfl,
          by simp [World.linesOf, World.setRunner, World.consoleCall, List.filterMap_append,
            Event.lineOf],
          by simp, by simp, by simp, by simp, by simp⟩
        · cases hs
      case timer =>
        simp only at hs
        split at hs
        · cases hs
        · rename_i hcx
          cases hs
          exact ⟨_, ⟨c, k, PC.timerPrint⟩, [], rfl, by simp [World.setRunner, World.consoleCall, hlt], rfl,
          by simp [World.linesOf, World.setRunner, World.consoleCall, List.filterMap_append,
            Event.lineOf],
          by simp, by simp, by simp, by simp [hcx], by simp⟩
    case doneClear =>
      simp only [hr] at hs
      cases hs
      exact ⟨_, ⟨c, k, PC.donePrint⟩, [], rfl, by simp [World.setRunner, World.consoleCall, hlt], rfl,
          by simp [World.linesOf, World.setRunner, World.consoleCall, List.filterMap_append,
            Event.lineOf],
          by simp, by simp, by simp, by simp, by simp⟩
    case donePrint =>
      simp only [hr] at hs
      cases hs
      exact ⟨_, ⟨c, k, PC.returned⟩, [canceledLine], rfl, by simp [World.setRunner, World.consoleCall, hlt], rfl,
          by simp [World.linesOf, World.setRunner, World.consoleCall, List.filterMap_append,
            Event.lineOf],
          by simp, by simp, by simp, by simp, by simp⟩
    case timerPrint =>
      simp only [hr] at hs
      cases hs
      exact ⟨_, ⟨c, wrapInt (k + 1), PC.loopCond⟩, [progressLine k], rfl, by simp [World.setRunner, World.consoleCall, hlt], rfl,
          by simp [World.linesOf, World.setRunner, World.consoleCall, List.filterMap_append,
            Event.lineOf],
          by simp, by simp, by simp, by simp, by simp⟩
    case endClear =>
      simp only [hr] at hs
      cases hs
      exact ⟨_, ⟨c, k, PC.endPrint⟩, [], rfl, by simp [World.setRunner, World.consoleCall, hlt], rfl,
          by simp [World.linesOf, World.setRunner, World.consoleCall, List.filterMap_append,
            Event.lineOf],
          by simp, by simp, by simp, by simp, by simp⟩
    case endPrint =>
      simp only [hr] at hs
      cases hs
      exact ⟨_, ⟨c, k, PC.returned⟩, [finishedLine], rfl, by simp [World.setRunner, World.consoleCall, hlt], rfl,
          by simp [World.linesOf, World.setRunner, World.consoleCall, List.filterMap_append,
            Event.lineOf],
          by simp, by simp, by simp, by simp, by simp⟩
    case returned =>
      simp [hr] at hs

theorem callCancel_keeps (c1 : CtxId) (w : World) :
    (w.callCancel c1).runners = w.runners ∧
    (∀ (c : CtxId), w.ctxs[c]? = some true → (w.callCancel c1).ctxs[c]? = some true) ∧
    (∀ i, (w.callCancel c1).linesOf i = w.linesOf i) ∧
    (w.callCancel c1).e = w.e := by
  refine ⟨rfl, ?_, ?_, rfl⟩
  · intro c hc
    have hlt : c < w.ctxs.length := (List.getElem?_eq_some.1 hc).1
    simp only [World.callCancel]
    by_cases hcc : c1 = c
    · subst hcc
      exact List.getElem?_set_self hlt
    · rw [List.getElem?_set_ne hcc]
      exact hc
  · intro i
    simp [World.linesOf, World.callCancel, List.filterMap_append, Event.lineOf]

/-- A statement of the controller adds no console line, leaves the goroutines that
exist as they are, and leaves cancelled contexts cancelled. -/
theorem ctlStep_keeps (s s1 : Sys) (hs : s.ctlStep = some s1) :
    (∀ (i : Nat) (r : Runner), s.world.runners[i]? = some r → s1.world.runners[i]? = some r) ∧
    (∀ (c : CtxId), s.world.ctxs[c]? = some true → s1.world.ctxs[c]? = some true) ∧
    (∀ i, s1.world.linesOf i = s.world.linesOf i) ∧
    s1.world.e.console = s.world.e.console := by
  obtain ⟨w, ctl⟩ := s
  unfold Sys.ctlStep at hs
  have hself : (∀ (i : Nat) (r : Runner), w.runners[i]? = some r → w.runners[i]? = some r) ∧
      (∀ (c : CtxId), w.ctxs[c]? = some true → w.ctxs[c]? = some true) ∧
      (∀ i, w.linesOf i = w.linesOf i) ∧ w.e.console = w.e.console :=
    ⟨fun _ _ hr => hr, fun _ hc => hc, fun _ => rfl, rfl⟩
  have hcall : ∀ c1, (∀ (i : Nat) (r : Runner), w.runners[i]? = some r →
        (w.callCancel c1).runners[i]? = some r) ∧
      (∀ (c : CtxId), w.ctxs[c]? = some true → (w.callCancel c1).ctxs[c]? = some true) ∧
      (∀ i, (w.callCancel c1).linesOf i = w.linesOf i) ∧
      (w.callCancel c1).e.console = w.e.console := by
    intro c1
    obtain ⟨k1, k2, k3, k4⟩ := callCancel_keeps c1 w
    exact ⟨fun i r hr => by rw [k1]; exact hr, k2, k3, by rw [k4]⟩
  cases ctl
  case idle => cases hs
  case panicked => cases hs
  case submitCheck =>
    simp only at hs
    cases hc : w.e.cancel <;> rw [hc] at hs <;> cases hs <;> exact hself
  case submitCall =>
    simp only at hs
    cases hc : w.e.cancel with
    | none => rw [hc] at hs; cases hs; exact hself
    | some c1 => rw [hc] at hs; cases hs; exact hcall c1
  case submitCreate =>
    simp only at hs
    cases hs
    refine ⟨fun _ _ hr => hr, ?_, ?_, rfl⟩
    · intro c hc
      have hlt : c < w.ctxs.length := (List.getElem?_eq_some.1 hc).1
      simp only
      rw [List.getElem?_append_left hlt]
      exact hc
    · intro i
      simp [World.linesOf, List.filterMap_append, Event.lineOf]
  case submitGo c1 =>
    simp only at hs
    cases hs
    refine ⟨?_, fun _ hc => hc, ?_, rfl⟩
    · intro i r hr
      have hlt : i < w.runners.length := (List.getElem?_eq_some.1 hr).1
      simp only
      rw [List.getElem?_append_left hlt]
      exact hr
    · intro i
      simp [World.linesOf, List.filterMap_append, Event.lineOf]
  case stopCheck =>
    simp only at hs
    cases hc : w.e.cancel <;> rw [hc] at hs <;> cases hs <;> exact hself
  case stopCall =>
    simp only at hs
    cases hc : w.e.cancel with
    | none => rw [hc] at hs; cases hs; exact hself
    | some c1 => rw [hc] at hs; cases hs; exact hcall c1
  case stopClear =>
    simp only at hs
    cases hs
    exact ⟨fun _ _ hr => hr, fun _ hc => hc, fun _ => rfl, rfl⟩

theorem beginSubmitData_keeps (h : Host) (button : String) (data : FormData) (s : Sys) :
    (s.beginSubmitData h button data).world.runners = s.world.runners ∧
    (s.beginSubmitData h button data).world.ctxs = s.world.ctxs ∧
    (∀ i, (s.beginSubmitData h button data).world.linesOf i = s.world.linesOf i) ∧
    (s.beginSubmitData h button data).world.e.console = s.world.e.console := by
  unfold Sys.beginSubmitData
  split
  · exact ⟨rfl, rfl, fun _ => rfl, rfl⟩
  split
  · exact ⟨rfl, rfl, fun _ => rfl, rfl⟩
  split
  · cases h.setFormData data s.world.e.Data with
    | error err =>
      exact ⟨rfl, rfl, fun i => by
        simp [World.linesOf, World.showMessage, List.filterMap_append, Event.lineOf], rfl⟩
    | ok d => exact ⟨rfl, rfl, fun _ => rfl, rfl⟩
  · exact ⟨rfl, rfl, fun i => by
      simp [World.linesOf, World.showMessage, List.filterMap_append, Event.lineOf], rfl⟩

theorem cancelledRun_start (w : World) (i : Nat) (r : Runner)
    (hr : w.runners[i]? = some r) (hc : w.ctxs[r.ctx]? = some true) :
    w.cancelledRun i r (w.linesOf i) := by
  refine ⟨r, [], hr, rfl, hc, by simp, ?_⟩
  by_cases h1 : r.pc = PC.timerPrint
  · exact Or.inl ⟨h1, h1, rfl, rfl⟩
  · by_cases h2 : r.pc = PC.returned
    · exact Or.inr (Or.inr ⟨h2, Or.inl rfl⟩)
    · exact Or.inr (Or.inl ⟨h1, h2, Or.inl rfl⟩)

theorem cancelledRun_run (b : Branch) (j : Nat) (w w1 : World) (i : Nat) (r : Runner)
    (L : List Line) (hs : backgroundTaskStep b j w = some w1) (hK : w.cancelledRun i r L) :
    w1.cancelledRun i r L := by
  obtain ⟨r2, extra, hr2, hctx, hcx, hlines, hcase⟩ := hK
  by_cases hji : j = i
  · subst hji
    obtain ⟨r0, r1, own, hr0, hr1, hc1, hl1, hT, hD, hE, hO, hnot⟩ :=
      backgroundTaskStep_lines b j w w1 hs
    obtain ⟨_, _, _, _, hcs, _⟩ := backgroundTaskStep_shape b j w w1 hs
    rw [hr2] at hr0
    cases hr0
    have hcx1 : w1.ctxs[r.ctx]? = some true := by
      obtain ⟨_, _, _, _, _, hcs, _⟩ := backgroundTaskStep_shape b j w w1 hs
      rw [hcs]; exact hcx
    refine ⟨r1, extra ++ own, hr1, hc1.trans hctx, hcx1,
      by rw [hl1, hlines, List.append_assoc], ?_⟩
    rcases hcase with ⟨hp, hrp, hcount, hex⟩ | ⟨hnT, hnR, hex⟩ | ⟨hR, _⟩
    · obtain ⟨hown, hpc1⟩ := hT hp
      refine Or.inr (Or.inl ⟨by rw [hpc1]; simp, by rw [hpc1]; simp, Or.inr ⟨hrp, ?_⟩⟩)
      rw [hex, hown, hcount]
      rfl
    · have hpcs : r2.pc = PC.loopCond ∨ r2.pc = PC.select ∨ r2.pc = PC.doneClear ∨
          r2.pc = PC.endClear ∨ r2.pc = PC.donePrint ∨ r2.pc = PC.endPrint := by
        cases hp : r2.pc <;> simp_all
      have hafter : ∀ fin : Line, (fin = canceledLine ∨ fin = finishedLine) →
          afterCancelLines r (extra ++ [fin]) := by
        intro fin hfin
        rcases hex with hex | ⟨hrp, hex⟩
        · rw [hex]
          rcases hfin with hf | hf
          · exact Or.inr (Or.inl (by rw [hf]; rfl))
          · exact Or.inr (Or.inr (Or.inl (by rw [hf]; rfl)))
        · rw [hex]
          rcases hfin with hf | hf
          · exact Or.inr (Or.inr (Or.inr ⟨hrp, Or.inr (Or.inl (by rw [hf]; rfl))⟩))
          · exact Or.inr (Or.inr (Or.inr ⟨hrp, Or.inr (Or.inr (by rw [hf]; rfl))⟩))
      have hquiet : (r2.pc = PC.loopCond ∨ r2.pc = PC.select ∨ r2.pc = PC.doneClear ∨
          r2.pc = PC.endClear) → _ := fun hq => by
        obtain ⟨hown, hne, htp⟩ := hO hq
        refine (Or.inr (Or.inl ⟨?_, hne, ?_⟩) :
          (r1.pc = PC.timerPrint ∧ r.pc = PC.timerPrint ∧ r1.count = r.count ∧
              extra ++ own = []) ∨
          (r1.pc ≠ PC.timerPrint ∧ r1.pc ≠ PC.returned ∧
            (extra ++ own = [] ∨ (r.pc = PC.timerPrint ∧ extra ++ own = [progressLine r.count]))) ∨
          (r1.pc = PC.returned ∧ afterCancelLines r (extra ++ own)))
        · intro htimer
          exact htp htimer (by rw [hctx]; exact hcx)
        · rw [hown, List.append_nil]
          exact hex
      rcases hpcs with hq | hq | hq | hq | hq | hq
      · exact hquiet (Or.inl hq)
      · exact hquiet (Or.inr (Or.inl hq))
      · exact hquiet (Or.inr (Or.inr (Or.inl hq)))
      · exact hquiet (Or.inr (Or.inr (Or.inr hq)))
      · obtain ⟨hown, hpc1⟩ := hD hq
        rw [hown]
        exact Or.inr (Or.inr ⟨hpc1, hafter canceledLine (Or.inl rfl)⟩)
      · obtain ⟨hown, hpc1⟩ := hE hq
        rw [hown]
        exact Or.inr (Or.inr ⟨hpc1, hafter finishedLine (Or.inr rfl)⟩)
    · exact absurd hR hnot
  · obtain ⟨r0, r1, ev, hr0, hrs, hcs, hev, _, hother, _⟩ := backgroundTaskStep_shape b j w w1 hs
    refine ⟨r2, extra, by rw [hrs, List.getElem?_set_ne hji]; exact hr2, hctx,
      by rw [hcs]; exact hcx, ?_, hcase⟩
    simp only [World.linesOf, hev, List.filterMap_append, hother i (Ne.symm hji),
      List.append_nil]
    exact hlines

theorem cancelledRun_step (h : Host) (m : Move) (s s1 : Sys) (i : Nat) (r : Runner)
    (L : List Line) (hs : Sys.step h m s = some s1) (hK : s.world.cancelledRun i r L) :
    s1.world.cancelledRun i r L := by
  have hkeep : ∀ (w1 : World),
      (∀ (j : Nat) (r0 : Runner), s.world.runners[j]? = some r0 → w1.runners[j]? = some r0) →
      (∀ (c : CtxId), s.world.ctxs[c]? = some true → w1.ctxs[c]? = some true) →
      (∀ j, w1.linesOf j = s.world.linesOf j) → w1.cancelledRun i r L := by
    intro w1 k1 k2 k3
    obtain ⟨r2, extra, hr2, hctx, hcx, hlines, hcase⟩ := hK
    exact ⟨r2, extra, k1 i r2 hr2, hctx, k2 _ hcx, by rw [k3 i]; exact hlines, hcase⟩
  cases m with
  | submitData button data =>
    simp only [Sys.step] at hs
    split at hs
    · cases hs
      obtain ⟨k1, k2, k3, _⟩ := beginSubmitData_keeps h button data s
      exact hkeep _ (fun j r0 hr0 => by rw [k1]; exact hr0) (fun c hc => by rw [k2]; exact hc) k3
    · cases hs
  | close =>
    simp only [Sys.step] at hs
    split at hs
    · cases hs
      exact hK
    · cases hs
  | ctl =>
    obtain ⟨k1, k2, k3, _⟩ := ctlStep_keeps s s1 hs
    exact hkeep _ k1 k2 k3
  | run j b =>
    simp only [Sys.step] at hs
    split at hs
    · cases hs
    · cases hb : backgroundTaskStep b j s.world with
      | none => rw [hb] at hs; cases hs
      | some w1 =>
        rw [hb] at hs
        cases hs
        exact cancelledRun_run b j s.world w1 i r L hb hK

theorem cancelledRun_exec (h : Host) (i : Nat) (r : Runner) (L : List Line) (ms : List Move) :
    ∀ (s s1 : Sys), Sys.exec h ms s = some s1 → s.world.cancelledRun i r L →
      s1.world.cancelledRun i r L := by
  induction ms with
  | nil =>
    intro s s1 hx hK
    simp only [Sys.exec, Option.some.injEq] at hx
    subst hx
    exact hK
  | cons m ms ih =>
    intro s s1 hx hK
    rw [Sys.exec_step_first] at hx
    cases hs : Sys.step h m s with
    | none => rw [hs] at hx; cases hx
    | some s2 =>
      rw [hs] at hx
      exact ih s2 s1 hx (cancelledRun_step h m s s2 i r L hs hK)

theorem cancelledRun_lines (w : World) (i : Nat) (r : Runner) (L : List Line)
    (hK : w.cancelledRun i r L) :
    ∃ extra, w.linesOf i = L ++ extra ∧ afterCancelLines r extra := by
  obtain ⟨r2, extra, _, _, _, hlines, hcase⟩ := hK
  refine ⟨extra, hlines, ?_⟩
  rcases hcase with ⟨_, _, _, hex⟩ | ⟨_, _, hex⟩ | ⟨_, hex⟩
  · exact Or.inl hex
  · rcases hex with hex | ⟨hrp, hex⟩
    · exact Or.inl hex
    · exact Or.inr (Or.inr (Or.inr ⟨hrp, Or.inl hex⟩))
  · exact hex

/-! ## C9: a run that is superseded -/

/-- C9, as it holds. When the submit case of `SubmitData` is at line 65 with the
cancel function of an earlier run in the slot, its next statement calls that
function; the new context and the new goroutine (lines 69-73) come after it, and
the call appends no console line. From that call on, in every interleaving of the
statements of the controller and of the goroutines, the earlier run appends at most
one further progress line, the one of a timer case it had already taken when its
cancel function was called, and then at most one last line (the cancellation line
or the completion line), and nothing else. -/
theorem superseded_run_cancelled_first (h : Host) (s : Sys) (c : CtxId) (i : Nat)
    (r : Runner) (hctl : s.ctl = Ctl.submitCall) (hc : s.world.e.cancel = some c)
    (hlt : c < s.world.ctxs.length) (hr : s.world.runners[i]? = some r) (hrc : r.ctx = c) :
    ∃ s1, Sys.step h Move.ctl s = some s1 ∧ s1.ctl = Ctl.submitCreate ∧
      s1.world.ctxs[c]? = some true ∧
      s1.world.hist = s.world.hist ++ [Event.cancelCalled c] ∧
      s1.world.e.console = s.world.e.console ∧
      s1.world.runners = s.world.runners ∧
      ∀ (ms : List Move) (s2 : Sys), Sys.exec h ms s1 = some s2 →
        ∃ extra, s2.world.linesOf i = s.world.linesOf i ++ extra ∧
          afterCancelLines r extra := by
  obtain ⟨w, ctl⟩ := s
  simp only at hctl hc hlt hr
  subst hctl
  have hstep : Sys.step h Move.ctl ⟨w, Ctl.submitCall⟩
      = some ⟨w.callCancel c, Ctl.submitCreate⟩ := by
    simp only [Sys.step, Sys.ctlStep, hc]
  have hcx : (w.callCancel c).ctxs[c]? = some true := by
    simp [World.callCancel, hlt]
  refine ⟨_, hstep, rfl, hcx, rfl, rfl, rfl, ?_⟩
  intro ms s2 hx
  have hK : (w.callCancel c).cancelledRun i r (w.linesOf i) := by
    have h0 := cancelledRun_start (w.callCancel c) i r hr (by rw [hrc]; exact hcx)
    rw [(callCancel_keeps c w).2.2.1 i] at h0
    exact h0
  exact cancelledRun_lines _ i r _ (cancelledRun_exec h i r _ ms _ s2 hx hK)

/-! ## Calls that run without interruption -/

theorem Sys.exec_concat (h : Host) (ms ns : List Move) (s : Sys) :
    Sys.exec h (ms ++ ns) s = (Sys.exec h ms s).bind (Sys.exec h ns) := by
  induction ms generalizing s with
  | nil => rfl
  | cons m ms ih =>
    simp only [List.cons_append, Sys.exec]
    cases Sys.step h m s with
    | none => rfl
    | some s1 => exact ih s1

theorem stop_is_moves (h : Host) (w : World) :
    ∃ n, Sys.exec h (List.replicate n Move.ctl) ⟨w, Ctl.stopCheck⟩
      = some ⟨(stop w).2, Ctl.idle⟩ := by
  cases hc : w.e.cancel with
  | none =>
    refine ⟨1, ?_⟩
    simp [Sys.exec, Sys.step, Sys.ctlStep, hc, stop_none w hc]
  | some c =>
    refine ⟨3, ?_⟩
    simp [Sys.exec, Sys.step, Sys.ctlStep, hc, stop_some w c hc, World.callCancel]

theorem startTask_is_moves (h : Host) (d : McrvpnData) (w : World) :
    ∃ n, Sys.exec h (List.replicate n Move.ctl)
        ⟨{ w with e := { w.e with Data := d } }, Ctl.submitCheck⟩
      = some ⟨startTask d w, Ctl.idle⟩ := by
  cases hc : w.e.cancel with
  | none =>
    refine ⟨3, ?_⟩
    rw [startTask_eq]
    simp [Sys.exec, Sys.step, Sys.ctlStep, hc]
  | some c =>
    refine ⟨4, ?_⟩
    rw [startTask_eq]
    simp [Sys.exec, Sys.step, Sys.ctlStep, hc, World.callCancel]

/-- A call of `SubmitData` in which no goroutine takes a step is a run of the
statement-level machine: the start of the call and then its statements. -/
theorem SubmitData_is_moves (h : Host) (button : String) (data : FormData) (w : World) :
    ∃ n, Sys.exec h (Move.submitData button data :: List.replicate n Move.ctl)
        ⟨w, Ctl.idle⟩
      = some ⟨(SubmitData h button data w).2, Ctl.idle⟩ := by
  have hfirst : Sys.step h (Move.submitData button data) ⟨w, Ctl.idle⟩
      = some (Sys.beginSubmitData h button data ⟨w, Ctl.idle⟩) := by
    simp [Sys.step]
  simp only [Sys.exec_step_first, hfirst, Option.bind]
  unfold Sys.beginSubmitData SubmitData
  split
  · exact ⟨0, rfl⟩
  split
  · exact stop_is_moves h w
  split
  · cases h.setFormData data w.e.Data with
    | error err => exact ⟨0, rfl⟩
    | ok d => exact startTask_is_moves h d w
  · exact ⟨0, rfl⟩

/-- Every run of `exec`, in which each call runs without interruption, is a run of
the statement-level machine. -/
theorem exec_is_moves (h : Host) (as : List Action) :
    ∀ (w w1 : World), exec h as w = some w1 →
      ∃ ms, Sys.exec h ms ⟨w, Ctl.idle⟩ = some ⟨w1, Ctl.idle⟩ := by
  induction as with
  | nil =>
    intro w w1 hx
    simp only [exec, Option.some.injEq] at hx
    subst hx
    exact ⟨[], rfl⟩
  | cons a as ih =>
    intro w w1 hx
    rw [exec_cons] at hx
    cases hs : step h a w with
    | none => rw [hs] at hx; cases hx
    | some w2 =>
      rw [hs] at hx
      obtain ⟨ms, hms⟩ := ih w2 w1 hx
      have hone : ∃ ns, Sys.exec h ns ⟨w, Ctl.idle⟩ = some ⟨w2, Ctl.idle⟩ := by
        cases a with
        | submitData button data =>
          simp only [step, Option.some.injEq] at hs
          subst hs
          obtain ⟨n, hn⟩ := SubmitData_is_moves h button data w
          exact ⟨_, hn⟩
        | close =>
          simp only [step, Option.some.injEq] at hs
          subst hs
          obtain ⟨n, hn⟩ := stop_is_moves h w
          refine ⟨Move.close :: List.replicate n Move.ctl, ?_⟩
          rw [Sys.exec_step_first]
          simpa [Sys.step] using hn
        | run i b =>
          refine ⟨[Move.run i b], ?_⟩
          have hb : backgroundTaskStep b i w = some w2 := hs
          simp [Sys.exec, Sys.step, hb]
      obtain ⟨ns, hns⟩ := hone
      refine ⟨ns ++ ms, ?_⟩
      rw [Sys.exec_concat, hns]
      exact hms

/-! ## Instances on concrete runs -/

theorem submit_invalid_witness :
    (SubmitData specHost specHost.ButtonSubmit [("count", "x")] World.oneRun).1
      = some ⟨"count: invalid syntax"⟩ ∧
    (SubmitData specHost specHost.ButtonSubmit [("count", "x")] World.oneRun).2.hist
      = World.oneRun.hist ++ [Event.showMessage "Invalid data" "count: invalid syntax"] ∧
    (SubmitData specHost specHost.ButtonSubmit [("count", "x")] World.oneRun).2.e
      = World.oneRun.e ∧
    (SubmitData specHost specHost.ButtonSubmit [("count", "x")] World.oneRun).2.ctxs
      = World.oneRun.ctxs ∧
    (SubmitData specHost specHost.ButtonSubmit [("count", "x")] World.oneRun).2.runners
      = World.oneRun.runners :=
  submit_invalid specHost (by decide) World.oneRun [("count", "x")]
    ⟨"count: invalid syntax"⟩ rfl

theorem submit_undefined_button_witness :
    "reload" ∉ [failingHost.ButtonDialogOk, failingHost.ButtonDialogClose,
                failingHost.ButtonCancel, failingHost.ButtonSubmit] ∧
    (SubmitData failingHost "reload" [] World.oneRun).1
      = failingHost.ShowMessage ("Button " ++ "reload" ++ " is pressed")
          "No action is defined for this button" ∧
    (SubmitData failingHost "reload" [] World.oneRun).2.hist
      = World.oneRun.hist ++ [Event.showMessage ("Button " ++ "reload" ++ " is pressed")
                    "No action is defined for this button"] ∧
    (SubmitData failingHost "reload" [] World.oneRun).2.e = World.oneRun.e ∧
    (SubmitData failingHost "reload" [] World.oneRun).2.ctxs = World.oneRun.ctxs ∧
    (SubmitData failingHost "reload" [] World.oneRun).2.runners = World.oneRun.runners :=
  ⟨by decide, submit_undefined_button failingHost "reload" [] World.oneRun (by decide)⟩

/-- C6 as written fails. On a host whose `ShowMessage` returns an error, a button
that is none of the four tags makes `SubmitData` return that error, not nil. -/
theorem undefined_button_returns_error :
    "reload" ∉ [failingHost.ButtonDialogOk, failingHost.ButtonDialogClose,
                failingHost.ButtonCancel, failingHost.ButtonSubmit] ∧
    (SubmitData failingHost "reload" [] World.init).1 = some ⟨"boom"⟩ ∧
    (SubmitData failingHost "reload" [] World.init).2.hist
      = [Event.showMessage "Button reload is pressed" "No action is defined for this button"] := by
  decide

/-- C4 fails on the code. After submit, submit again, and the first goroutine
taking the Done case and executing its `e.cancel = nil`, the slot is nil although
the second goroutine is active and not cancelled; the cancel action then calls no
cancel function, and the second run goes on to its completion line. -/
theorem second_run_loses_its_handle :
    (exec specHost [specSubmit "3", specSubmit "3", Action.run 0 Branch.ctxDone,
        Action.run 0 Branch.ctxDone, Action.run 0 Branch.ctxDone]
        World.init).map (fun w => (w.e.cancel, w.runners[1]?, w.ctxs))
      = some (none, some ⟨1, 1, PC.loopCond⟩, [true, false]) ∧
    (exec specHost [specSubmit "3", specSubmit "3", Action.run 0 Branch.ctxDone,
        Action.run 0 Branch.ctxDone, Action.run 0 Branch.ctxDone, specCancel]
        World.init).map (fun w => (w.e.cancel, w.runners[1]?, w.ctxs, w.hist))
      = some (none, some ⟨1, 1, PC.loopCond⟩, [true, false],
              [Event.withCancel 0, Event.go 0 0, Event.cancelCalled 0, Event.withCancel 1,
               Event.go 1 1]) ∧
    (exec specHost ([specSubmit "3", specSubmit "3", Action.run 0 Branch.ctxDone,
        Action.run 0 Branch.ctxDone, Action.run 0 Branch.ctxDone, specCancel]
        ++ List.replicate 12 (Action.run 1 Branch.timer))
        World.init).map (fun w => (w.linesOf 1, w.runners[1]?))
      = some ([progressLine 1, progressLine 2, progressLine 3, finishedLine],
              some ⟨1, 4, PC.returned⟩) := by
  decide

/-- C8 as written fails, in three ways. Between lines 70 and 73 of the first
submit the slot is non-nil and no goroutine has been started. After two submits the
slot is non-nil and two goroutines are active, the first cancelled but not
returned. And a goroutine that has cleared the slot at line 46 returns, after a new
submit has filled the slot again, with the slot non-nil. -/
theorem slot_without_exactly_one_runner :
    (Sys.exec specHost [specCall "3", Move.ctl, Move.ctl] Sys.init).map
        (fun s => (s.ctl, s.world.e.cancel, s.world.activeCount))
      = some (Ctl.submitGo 0, some 0, 0) ∧
    (Sys.exec specHost [specCall "3", Move.ctl, Move.ctl, Move.ctl,
        specCall "3", Move.ctl, Move.ctl, Move.ctl, Move.ctl] Sys.init).map
        (fun s => (s.ctl, s.world.e.cancel, s.world.activeCount))
      = some (Ctl.idle, some 1, 2) ∧
    (Sys.exec specHost [specCall "0", Move.ctl, Move.ctl, Move.ctl,
        Move.run 0 Branch.timer, Move.run 0 Branch.timer,
        specCall "3", Move.ctl, Move.ctl, Move.ctl,
        Move.run 0 Branch.timer] Sys.init).map
        (fun s => (s.ctl, s.world.e.cancel, s.world.runners[0]?))
      = some (Ctl.idle, some 1, some ⟨0, 1, PC.returned⟩) := by
  decide

/-- C9 as written fails. The first goroutine has taken the timer case of its select
when the second submit arrives; its progress line is appended after the second run
has been started. With count 1 that line is its last step, and its completion line
follows as well. -/
theorem progress_line_after_restart :
    (Sys.exec specHost [specCall "2", Move.ctl, Move.ctl, Move.ctl,
        Move.run 0 Branch.timer, Move.run 0 Branch.timer,
        specCall "2", Move.ctl, Move.ctl, Move.ctl, Move.ctl,
        Move.run 0 Branch.timer] Sys.init).map (fun s => s.world.hist)
      = some [Event.withCancel 0, Event.go 0 0, Event.cancelCalled 0, Event.withCancel 1,
              Event.go 1 1, Event.console 0 (progressLine 1)] ∧
    (Sys.exec specHost [specCall "1", Move.ctl, Move.ctl, Move.ctl,
        Move.run 0 Branch.timer, Move.run 0 Branch.timer,
        specCall "1", Move.ctl, Move.ctl, Move.ctl, Move.ctl,
        Move.run 0 Branch.timer, Move.run 0 Branch.timer, Move.run 0 Branch.timer,
        Move.run 0 Branch.timer] Sys.init).map (fun s => s.world.hist)
      = some [Event.withCancel 0, Event.go 0 0, Event.cancelCalled 0, Event.withCancel 1,
              Event.go 1 1, Event.console 0 (progressLine 1),
              Event.console 0 finishedLine, Event.returned 0] := by
  decide

theorem slot_owner_is_active_witness :
    Reachable specHost Sys.oneRun ∧
    (Sys.oneRun.ctl = Ctl.idle → ∀ c, Sys.oneRun.world.e.cancel = some c →
      Sys.oneRun.world.active c ∧ Sys.oneRun.world.ctxs[c]? = some false ∧
      (∃ r, Sys.oneRun.world.runners[c]? = some r ∧ r.ctx = c) ∧
      (∀ (j : Nat) (r : Runner), Sys.oneRun.world.runners[j]? = some r → r.ctx = c → j = c)) ∧
    (∀ s1, (Sys.oneRun.ctl = Ctl.stopCheck ∨ Sys.oneRun.ctl = Ctl.stopClear) →
      Sys.step specHost Move.ctl Sys.oneRun = some s1 → s1.ctl = Ctl.idle →
      s1.world.e.cancel = none) ∧
    (∀ (i : Nat) (b : Branch) (s1 : Sys) (r1 : Runner),
      Sys.step specHost (Move.run i b) Sys.oneRun = some s1 →
      s1.world.runners[i]? = some r1 → r1.pc = PC.returned →
      s1.world.e.cancel ≠ some r1.ctx) :=
  ⟨⟨[specCall "3", Move.ctl, Move.ctl, Move.ctl], by decide⟩,
    slot_owner_is_active specHost Sys.oneRun
      ⟨[specCall "3", Move.ctl, Move.ctl, Move.ctl], by decide⟩⟩

theorem superseded_run_cancelled_first_witness :
    Sys.exec specHost [specCall "3", Move.ctl, Move.ctl, Move.ctl,
        Move.run 0 Branch.timer, Move.run 0 Branch.timer, specCall "2", Move.ctl] Sys.init
      = some Sys.resubmitting ∧
    ∃ s1, Sys.step specHost Move.ctl Sys.resubmitting = some s1 ∧
      s1.ctl = Ctl.submitCreate ∧
      s1.world.ctxs[0]? = some true ∧
      s1.world.hist = Sys.resubmitting.world.hist ++ [Event.cancelCalled 0] ∧
      s1.world.e.console = Sys.resubmitting.world.e.console ∧
      s1.world.runners = Sys.resubmitting.world.runners ∧
      ∀ (ms : List Move) (s2 : Sys), Sys.exec specHost ms s1 = some s2 →
        ∃ extra, s2.world.linesOf 0 = Sys.resubmitting.world.linesOf 0 ++ extra ∧
          afterCancelLines ⟨0, 1, PC.timerPrint⟩ extra :=
  ⟨by decide,
    superseded_run_cancelled_first specHost Sys.resubmitting 0 0 ⟨0, 1, PC.timerPrint⟩
      rfl rfl (by decide) rfl rfl⟩

end HiddifyExtension
